import Mathlib

/-!
Verification development for the FastBidder matching pipeline.

Shallow embedding of the core components of the repository:
column-letter addressing, tabular (pandas-style) extraction, the
similarity matcher's selection loop, write-back of matching results,
batched embedding generation and the pipeline orchestrator.

Conventions of the embedding:
* a pandas DataFrame obtained from `pd.read_excel` is a list of data
  rows (the spreadsheet's first row is consumed as the header), plus
  the list of column names;
* machine floats are modelled by rationals; the floating-point cosine
  kernel of the matcher is not re-modelled bit for bit — the rounded
  similarity matrix is an explicit input of the selection loop, which
  makes the theorems about the selection logic quantify over every
  matrix the kernel could produce;
* Python exceptions are `Except`/`Option` results;
* `iloc`/`iat` positional indexing wraps negative indices once (pandas
  semantics) and fails out of bounds.
-/

namespace FastBidder

/-- A cell of a spreadsheet / DataFrame: missing value (NaN), text, or a
number.  Numbers are modelled by rationals. -/
inductive Cell where
  | na : Cell
  | str (s : String) : Cell
  | num (v : ℚ) : Cell
deriving DecidableEq

/-- Model of `pd.isna` on one cell. -/
def pyIsNa : Cell → Bool
  | Cell.na => true
  | _ => false

/-- Model of Python `str()` applied to a cell value.  Numeric cells are
rendered by the rational printer; no claim evaluates this case, every
theorem uses the same rendering on both sides. -/
def pyStr : Cell → String
  | Cell.na => "nan"
  | Cell.str s => s
  | Cell.num v => toString v

/-- Model of Python `str.strip()` with no argument: remove leading and
trailing whitespace.  Implemented over the character list so that it
reduces definitionally (the built-in `String.trim` does not). -/
def pyStrip (s : String) : String :=
  String.mk (((s.data.dropWhile Char.isWhitespace).reverse.dropWhile Char.isWhitespace).reverse)

/-- Model of the Python call `s.replace("_", " ")` (single-character
pattern and replacement, as in the source). -/
def pyReplaceUnderscore (s : String) : String :=
  String.mk (s.data.map (fun c => if c = '_' then ' ' else c))

/-- Digits of a decimal string, or `none` when empty or non-numeric.
Helper for the model of Python `float(str)`. -/
def digitsToNat : List Char → Option Nat
  | [] => none
  | cs =>
    if cs.all Char.isDigit then
      some (cs.foldl (fun a c => a * 10 + (c.toNat - 48)) 0)
    else none

/-- Value of a digit list read after the decimal point. -/
def fracValue (cs : List Char) : ℚ :=
  (cs.foldl (fun a c => a * 10 + (c.toNat - 48)) 0 : ℚ) / (10 : ℚ) ^ cs.length

/-- Model of Python `float(s)` on decimal literals: optional sign,
digits, optional single decimal point ("1.", ".5" accepted, "." not).
Exponent/inf/nan spellings are not modelled; no claim depends on them. -/
def pyParseFloat (s : String) : Option ℚ :=
  let cs := (pyStrip s).data
  let signed : ℚ × List Char :=
    match cs with
    | '-' :: r => (-1, r)
    | '+' :: r => (1, r)
    | r => (1, r)
  match (String.mk signed.2).splitOn "." with
  | [a] => (digitsToNat a.data).map (fun n => signed.1 * n)
  | [a, b] =>
    if a.data.isEmpty && b.data.isEmpty then none
    else if a.data.all Char.isDigit && b.data.all Char.isDigit then
      some (signed.1 *
        ((a.data.foldl (fun x c => x * 10 + (c.toNat - 48)) 0 : ℚ) + fracValue b.data))
    else none
  | _ => none

/-- Model of Python `float(cell)` as used on a price cell: a numeric cell
is already a float, a text cell is parsed.  A NaN cell is filtered before
this call in the source, the `none` here is unreachable there. -/
def cellToFloat : Cell → Option ℚ
  | Cell.na => none
  | Cell.num v => some v
  | Cell.str s => pyParseFloat s

/-- Model of Python `str.capitalize`: first character upper-cased, the
rest lower-cased (ASCII). -/
def pyCapitalize (s : String) : String :=
  match s.data with
  | [] => ""
  | c :: rest => String.mk (c.toUpper :: rest.map Char.toLower)

/-- Round-half-even of `10 * v`, the integer of one-decimal formatting.
Computed from the numerator and denominator with integer arithmetic:
`f` is the floor of `10 * v` and the doubled remainder decides the
rounding direction, ties going to the even integer. -/
def roundHalfEven10 (v : ℚ) : ℤ :=
  let p : ℤ := 10 * v.num
  let q : ℤ := (v.den : ℤ)
  let f : ℤ := Int.fdiv p q
  let r2 : ℤ := 2 * (p - f * q)
  if r2 > q then f + 1
  else if r2 < q then f
  else if f % 2 = 0 then f else f + 1

/-- Model of the Python format `f"{v:.1f}"`. -/
def pyFormatFix1 (v : ℚ) : String :=
  let n := roundHalfEven10 v
  (if n < 0 then "-" else "") ++ toString (n.natAbs / 10) ++ "." ++ toString (n.natAbs % 10)

instance {ε α : Type} [DecidableEq ε] [DecidableEq α] : DecidableEq (Except ε α) := fun x y =>
  match x, y with
  | .ok a, .ok b =>
    if h : a = b then isTrue (by rw [h]) else isFalse (fun hc => h (Except.ok.inj hc))
  | .error a, .error b =>
    if h : a = b then isTrue (by rw [h]) else isFalse (fun hc => h (Except.error.inj hc))
  | .ok _, .error _ => isFalse (fun hc => Except.noConfusion hc)
  | .error _, .ok _ => isFalse (fun hc => Except.noConfusion hc)

/-! ## ColumnAddressing (`_column_letter_to_index`) -/

/-- The per-character loop of `_column_letter_to_index`: checks each
character against `string.ascii_uppercase` and accumulates
`result * 26 + (ord(char) - ord("A") + 1)`. -/
def letterFold : List Char → Int → Except String Int
  | [], acc => .ok acc
  | c :: rest, acc =>
    if 'A' ≤ c ∧ c ≤ 'Z' then
      letterFold rest (acc * 26 + ((c.toNat : Int) - 65 + 1))
    else .error "Nieprawidlowy znak w oznaczeniu kolumny"

/-- Model of `ExcelProcessingService._column_letter_to_index`: the input
is upper-cased first, then folded as a base-26 numeral; the final value
is decremented to a zero-based index. -/
def columnLetterToIndex (s : String) : Except String Int :=
  (letterFold (s.data.map Char.toUpper) 0).map (fun r => r - 1)

/-- Value of a letter digit, A = 1 through Z = 26. -/
def letterDigit (c : Char) : Int := (c.toNat : Int) - 64

/-- Positional base-26 value of a digit string, written from the claim:
the string is a base-26 numeral with digits A=1 … Z=26. -/
def base26Value : List Char → Int
  | [] => 0
  | c :: rest => letterDigit c * (26 : Int) ^ rest.length + base26Value rest

/-! ## DataFrame model -/

/-- A pandas DataFrame: column names and data rows (the header row of
the spreadsheet is already consumed by `pd.read_excel`). -/
structure DataFrame where
  names : List String
  rows : List (List Cell)
deriving DecidableEq

/-- Number of data rows, `len(df)`. -/
def DataFrame.nrows (df : DataFrame) : Int := (df.rows.length : Int)

/-- Number of columns, `len(df.columns)` / `df.shape[1]`. -/
def DataFrame.ncols (df : DataFrame) : Int := (df.names.length : Int)

/-- The DataFrame is rectangular: every data row has one cell per column.
pandas guarantees this by construction. -/
def Rect (df : DataFrame) : Prop :=
  ∀ row ∈ df.rows, row.length = df.names.length

/-- Model of `pd.read_excel` on an in-memory spreadsheet given as its
list of rows: the first row becomes the header (column names via
`str()`), the remaining rows become the data. -/
def readExcel (sheet : List (List Cell)) : DataFrame :=
  { names := (sheet.headD []).map pyStr, rows := sheet.tail }

/-- Model of scalar `df.iloc[i, c]` / `df.iat[i, c]` reads: negative
indices wrap once from the end, out-of-bounds raises. -/
def iloc (df : DataFrame) (i c : Int) : Except String Cell :=
  let i' := if i < 0 then i + df.nrows else i
  let c' := if c < 0 then c + df.ncols else c
  if 0 ≤ i' ∧ i' < df.nrows ∧ 0 ≤ c' ∧ c' < df.ncols then
    .ok ((df.rows.getD i'.toNat []).getD c'.toNat Cell.na)
  else .error "single positional indexer is out-of-bounds"

/-- Direct cell lookup by non-negative coordinates (for specifications). -/
def getCell (df : DataFrame) (r c : Nat) : Cell :=
  (df.rows.getD r []).getD c Cell.na

/-- The requested row range, after `int()` parsing of its two bounds. -/
structure RowRange where
  start : Int
  stop : Int
deriving DecidableEq

/-- Successive integers starting at `a`. -/
def intRangeAux (a : Int) : Nat → List Int
  | 0 => []
  | n + 1 => a :: intRangeAux (a + 1) n

/-- The list of loop indices of Python `range(a, b)`. -/
def intRange (a b : Int) : List Int :=
  intRangeAux a (b - a).toNat

/-! ## TabularExtractor (`_extract_working_file_data`, `_extract_reference_file_data`) -/

/-- A record extracted from the working file. -/
structure WFRecord where
  row_index : Int
  description : String
deriving DecidableEq

/-- A record extracted from the reference file. -/
structure REFRecord where
  row_index : Int
  description : String
  price : ℚ
deriving DecidableEq

/-- The extraction loop of `_extract_working_file_data`: for every loop
index `i`, read `df.iloc[i - 1, c]`, skip NaN cells and cells whose
trimmed text is empty, otherwise retain `{row_index: i + 1,
description}`.  A read failure aborts the whole extraction, as the
Python exception does. -/
def extractLoopWF (df : DataFrame) (c : Int) : List Int → Except String (List WFRecord)
  | [] => .ok []
  | i :: rest =>
    match iloc df (i - 1) c with
    | .error e => .error e
    | .ok cell =>
      if pyIsNa cell then extractLoopWF df c rest
      else
        let description := pyStrip (pyStr cell)
        if description = "" then extractLoopWF df c rest
        else
          match extractLoopWF df c rest with
          | .error e => .error e
          | .ok res => .ok (⟨i + 1, description⟩ :: res)

/-- Model of `_extract_working_file_data` (after the file is loaded into
`df`): resolve the column letter, validate `start`, clamp `end` to the
row count, validate the column index, then run the loop over
`range(start_row, end_row)`. -/
def extractWorkingFileData (df : DataFrame) (descriptionColumn : String)
    (r : RowRange) : Except String (List WFRecord) :=
  match columnLetterToIndex descriptionColumn with
  | .error e => .error e
  | .ok colIndex =>
    let startRow := r.start - 1
    let endRow := r.stop
    if startRow < 0 then .error "Nieprawidlowy zakres wierszy"
    else
      let endRow := if endRow > df.nrows then df.nrows else endRow
      if colIndex ≥ df.ncols then .error "Kolumna nie istnieje w pliku"
      else extractLoopWF df colIndex (intRange startRow endRow)

/-- The extraction loop of `_extract_reference_file_data`: both the
description and the price cell of `df` row `i - 1` are read first; NaN
descriptions, NaN prices and unparsable prices skip the row, otherwise
`{row_index: i + 1, description, price}` is retained when the trimmed
description is non-empty. -/
def extractLoopREF (df : DataFrame) (dc pc : Int) : List Int → Except String (List REFRecord)
  | [] => .ok []
  | i :: rest =>
    match iloc df (i - 1) dc with
    | .error e => .error e
    | .ok descCell =>
      match iloc df (i - 1) pc with
      | .error e => .error e
      | .ok priceCell =>
        if pyIsNa descCell then extractLoopREF df dc pc rest
        else
          let description := pyStrip (pyStr descCell)
          if pyIsNa priceCell then extractLoopREF df dc pc rest
          else
            match cellToFloat priceCell with
            | none => extractLoopREF df dc pc rest
            | some price =>
              if description = "" then extractLoopREF df dc pc rest
              else
                match extractLoopREF df dc pc rest with
                | .error e => .error e
                | .ok res => .ok (⟨i + 1, description, price⟩ :: res)

/-- Model of `_extract_reference_file_data`.  Unlike the working-file
variant, the source only logs when the range exceeds the file — the
clamping assignment is commented out there, so `endRow` is used as
given. -/
def extractReferenceFileData (df : DataFrame) (descriptionColumn : String)
    (r : RowRange) (priceColumn : String) : Except String (List REFRecord) :=
  match columnLetterToIndex descriptionColumn with
  | .error e => .error e
  | .ok descIndex =>
    match columnLetterToIndex priceColumn with
    | .error e => .error e
    | .ok priceIndex =>
      let startRow := r.start - 1
      let endRow := r.stop
      if startRow < 0 then .error "Nieprawidlowy zakres wierszy"
      else if descIndex ≥ df.ncols then .error "Kolumna opisu nie istnieje w pliku"
      else if priceIndex ≥ df.ncols then .error "Kolumna ceny nie istnieje w pliku"
      else extractLoopREF df descIndex priceIndex (intRange startRow endRow)

/-- Trimmed text content of the description cell of a 1-based
spreadsheet row (row 1 is the sheet's first row, the header included).
Specification-side accessor used to state the row-index invariant. -/
def sheetCellTrimmed (sheet : List (List Cell)) (rowIdx1 colIdx : Int) : String :=
  pyStrip (pyStr ((sheet.getD (rowIdx1 - 1).toNat []).getD colIdx.toNat Cell.na))

/-! ## SimilarityMatcher (`_calculate_embeddings_similarity`, `match_descriptions`)

The floating-point kernel (`pickle.loads`, vector normalisation and
`np.dot`) is not re-modelled: the rounded similarity matrix it produces
is an explicit argument of the selection loop, so every theorem below
holds for every matrix the kernel could output. -/

/-- One matching result, the dictionary built per WF row. -/
structure MatchResultR where
  wf_row_index : Int
  wf_description : String
  matched : Bool
  ref_row_index : Option Int
  ref_description : Option String
  similarity : Option ℚ
  price : Option ℚ
  matching_status : String
deriving DecidableEq

/-- The initialised result of one WF row, before any match is found. -/
def noMatchResult (wf : WFRecord) : MatchResultR :=
  { wf_row_index := wf.row_index, wf_description := wf.description,
    matched := false, ref_row_index := none, ref_description := none,
    similarity := none, price := none, matching_status := "no_match" }

/-- Placeholder REF record for out-of-range `getD` lookups; theorems
carry the length hypotheses making it unreachable. -/
def junkREF : REFRecord := ⟨0, "", 0⟩

/-- Placeholder WF record, as `junkREF`. -/
def junkWF : WFRecord := ⟨0, ""⟩

/-- Model of `np.where(pred)[0]` over an array of length `n`: the
ascending list of indices satisfying the predicate. -/
def npWhere (p : Nat → Bool) (n : Nat) : List Nat :=
  (List.range n).filter p

/-- Maximum of a rational list (`0` for the empty list, which no use
site reaches). -/
def listMax : List ℚ → ℚ
  | [] => 0
  | [x] => x
  | x :: y :: t => max x (listMax (y :: t))

/-- Model of `np.argmax`: index of the first occurrence of the maximum. -/
def argmaxIdx : List ℚ → Nat
  | [] => 0
  | [_] => 0
  | x :: y :: t => if x < listMax (y :: t) then argmaxIdx (y :: t) + 1 else 0

/-- The candidate set of one matrix row:
`np.where(similarities >= threshold)[0]`. -/
def matchesIndices (sims : List ℚ) (threshold : ℚ) : List Nat :=
  npWhere (fun j => decide (threshold ≤ sims.getD j 0)) sims.length

/-- `matches_indices[np.argmax(similarities[matches_indices])]`: the
first candidate index holding the maximal candidate similarity. -/
def bestMatchIdx (sims : List ℚ) (threshold : ℚ) : Nat :=
  (matchesIndices sims threshold).getD
    (argmaxIdx ((matchesIndices sims threshold).map (fun j => sims.getD j 0))) 0

/-- `best_similarity = similarities[best_match_idx]`. -/
def bestSimilarity (sims : List ℚ) (threshold : ℚ) : ℚ :=
  sims.getD (bestMatchIdx sims threshold) 0

/-- `np.where(similarities == best_similarity)[0]`, the tie set over the
whole row. -/
def bestMatches (sims : List ℚ) (threshold : ℚ) : List Nat :=
  npWhere (fun j => decide (sims.getD j 0 = bestSimilarity sims threshold)) sims.length

/-- The preference predicate of the tie-break scan: similarity exactly
100, or trimmed description equality with the WF description. -/
def tiePref (wfDesc : String) (refData : List REFRecord) (sims : List ℚ) (j : Nat) : Bool :=
  decide (sims.getD j 0 = 100) ||
    decide (pyStrip wfDesc = pyStrip ((refData.getD j junkREF).description))

/-- The per-WF-row body of the matching loop of
`_calculate_embeddings_similarity`: candidates at or above the
threshold, `argmax` among them, the equal-similarity tie set over the
whole row, the exact-match preference scan (a `for`/`break` search,
`List.find?`), and the result record. -/
def calcRow (refData : List REFRecord) (threshold : ℚ) (wf : WFRecord)
    (sims : List ℚ) : MatchResultR :=
  if (matchesIndices sims threshold).isEmpty then noMatchResult wf
  else
    let exactTextMatch := (bestMatches sims threshold).find? (tiePref wf.description refData sims)
    let refIdx := match exactTextMatch with
      | some j => j
      | none => bestMatchIdx sims threshold
    let refMatch := refData.getD refIdx junkREF
    { wf_row_index := wf.row_index, wf_description := wf.description,
      matched := true, ref_row_index := some refMatch.row_index,
      ref_description := some refMatch.description,
      similarity := some (bestSimilarity sims threshold), price := some refMatch.price,
      matching_status :=
        if 1 < (bestMatches sims threshold).length then "multiple_matches_best_selected"
        else "matched" }

/-- The matching loop: one result per WF record, in WF iteration order,
row `i` of the similarity matrix serving WF record `i`. -/
def calcSimilarityResults (wfData : List WFRecord) (refData : List REFRecord)
    (sim : List (List ℚ)) (threshold : ℚ) : List MatchResultR :=
  (List.range wfData.length).map
    (fun i => calcRow refData threshold (wfData.getD i junkWF) (sim.getD i []))

/-- Specification-side: the exact maximum similarity among the REF
candidates at or above the threshold, as worded by the claim. -/
def specBestSim (sims : List ℚ) (t : ℚ) : ℚ :=
  listMax (sims.filter (fun s => decide (t ≤ s)))

/-- Specification-side: the ties — all REF indices achieving the exact
maximum candidate similarity, in REF iteration order. -/
def specTies (sims : List ℚ) (t : ℚ) : List Nat :=
  npWhere (fun j => decide (sims.getD j 0 = specBestSim sims t)) sims.length

/-- Specification-side: the selected tie — the first tie preferred by
the exact-match rule when one exists, otherwise the first tie in REF
iteration order. -/
def specSelect (wfDesc : String) (refData : List REFRecord) (sims : List ℚ) (t : ℚ) : Nat :=
  match (specTies sims t).find? (tiePref wfDesc refData sims) with
  | some j => j
  | none => (specTies sims t).headD 0

/-- Specification-side: the matched result the claim prescribes for a
WF item with a non-empty candidate set — selected tie's REF fields, the
exact maximum as similarity, and the status determined by the number of
ties. -/
def specMatchedResult (wf : WFRecord) (refData : List REFRecord) (sims : List ℚ)
    (t : ℚ) : MatchResultR :=
  { wf_row_index := wf.row_index, wf_description := wf.description,
    matched := true,
    ref_row_index :=
      some ((refData.getD (specSelect wf.description refData sims t) junkREF).row_index),
    ref_description :=
      some ((refData.getD (specSelect wf.description refData sims t) junkREF).description),
    similarity := some (specBestSim sims t),
    price := some ((refData.getD (specSelect wf.description refData sims t) junkREF).price),
    matching_status :=
      if (specTies sims t).length = 1 then "matched"
      else "multiple_matches_best_selected" }

/-- The typed failures of `match_descriptions` (each a distinct
`ValueError`/`EmbeddingError` message in the source). -/
inductive MatchError where
  | invalidThreshold : MatchError
  | emptyWorkingFile : MatchError
  | emptyReferenceFile : MatchError
  | missingWfEmbedding : MatchError
  | missingRefEmbedding : MatchError
deriving DecidableEq

/-- A stored working-file description row (embedding present or not). -/
structure StoredWfDesc where
  row_index : Int
  description : String
  embedding : Option (List ℚ)
deriving DecidableEq

/-- A stored reference-file description row. -/
structure StoredRefDesc where
  row_index : Int
  description : String
  price : ℚ
  embedding : Option (List ℚ)
deriving DecidableEq

/-- Model of `match_descriptions` for an existing session, given the
session's stored WF and REF rows: threshold validation, emptiness
checks, the fail-fast missing-embedding checks, then the similarity
loop (which itself cannot raise).  `simMatrix` stands for the rounded
cosine matrix computed from the embeddings. -/
def matchDescriptions (wf : List StoredWfDesc) (ref : List StoredRefDesc)
    (matchingThreshold : ℚ) (simMatrix : List (List ℚ)) :
    Except MatchError (List MatchResultR) :=
  if ¬(0 ≤ matchingThreshold ∧ matchingThreshold ≤ 100) then .error .invalidThreshold
  else if wf.isEmpty then .error .emptyWorkingFile
  else if ref.isEmpty then .error .emptyReferenceFile
  else if wf.any (fun d => d.embedding.isNone) then .error .missingWfEmbedding
  else if ref.any (fun d => d.embedding.isNone) then .error .missingRefEmbedding
  else
    .ok (calcSimilarityResults
      (wf.map (fun d => ⟨d.row_index, d.description⟩))
      (ref.map (fun d => ⟨d.row_index, d.description, d.price⟩))
      simMatrix matchingThreshold)

/-! ## TabularWriter (`update_working_file`) -/

/-- Model of `df[name] = np.nan`: overwrite the column when the name
already exists, otherwise append a new all-NaN column. -/
def assignNaColumn (df : DataFrame) (name : String) : DataFrame :=
  if name ∈ df.names then
    { df with rows := df.rows.map (fun row => row.set (df.names.indexOf name) Cell.na) }
  else
    { names := df.names ++ [name], rows := df.rows.map (fun row => row ++ [Cell.na]) }

/-- The first column-extension loop (price column): `df[f"Col_{i}"] =
np.nan` for each `i` of the pre-computed range, unconditionally. -/
def colExtendLoop (df : DataFrame) : List Int → DataFrame
  | [] => df
  | i :: rest => colExtendLoop (assignNaColumn df ("Col_" ++ toString i)) rest

/-- The second column-extension loop (report column): same assignment,
but skipped when the name is already a column. -/
def colExtendLoopGuard (df : DataFrame) : List Int → DataFrame
  | [] => df
  | i :: rest =>
    let nm := "Col_" ++ toString i
    colExtendLoopGuard (if nm ∈ df.names then df else assignNaColumn df nm) rest

/-- Python `max` over a non-empty list of integers (`0` for `[]`, which
is guarded in the source). -/
def intListMax : List Int → Int
  | [] => 0
  | x :: xs => xs.foldl max x

/-- Append `k` all-NaN rows (the missing-row loop of
`update_working_file`). -/
def appendNaRows (df : DataFrame) (k : Nat) : DataFrame :=
  { df with rows := df.rows ++ List.replicate k (List.replicate df.names.length Cell.na) }

/-- Model of a scalar `df.iat[i, c] = v` assignment: negative indices
wrap once, out-of-bounds raises (`none`). -/
def iatSet (df : DataFrame) (i c : Int) (v : Cell) : Option DataFrame :=
  let i' := if i < 0 then i + df.nrows else i
  let c' := if c < 0 then c + df.ncols else c
  if 0 ≤ i' ∧ i' < df.nrows ∧ 0 ≤ c' ∧ c' < df.ncols then
    some { df with rows := df.rows.set i'.toNat ((df.rows.getD i'.toNat []).set c'.toNat v) }
  else none

/-- The cell written into the price column: the result's price, NaN when
absent (Python `None` assignment). -/
def priceCellOf (p : Option ℚ) : Cell :=
  match p with
  | some v => Cell.num v
  | none => Cell.na

/-- The report string of a matched result, exactly as formatted by the
source: the status with underscores replaced by spaces and
`str.capitalize` applied, then `" (podobieństwo: "`, then the
similarity as `f"{v:.1f}%"` or `"N/A"`, then `")"`. -/
def reportText (res : MatchResultR) : String :=
  pyCapitalize (pyReplaceUnderscore res.matching_status) ++ " (podobieństwo: " ++
    (match res.similarity with
     | some v => pyFormatFix1 v ++ "%"
     | none => "N/A") ++ ")"

/-- The write loop of `update_working_file`: each result's row index is
shifted by the fixed offset `2`; rows falling outside the DataFrame are
skipped with a warning; matched results write price and report cells,
unmatched ones only the fixed no-match marker into the report cell. -/
def writeLoop (priceIdx reportIdx : Int) : List MatchResultR → DataFrame → Option DataFrame
  | [], df => some df
  | res :: rest, df =>
    let rowIdx := res.wf_row_index - 2
    if rowIdx < df.nrows ∧ 0 ≤ rowIdx then
      if res.matched then
        match iatSet df rowIdx priceIdx (priceCellOf res.price) with
        | none => none
        | some df1 =>
          match iatSet df1 rowIdx reportIdx (Cell.str (reportText res)) with
          | none => none
          | some df2 => writeLoop priceIdx reportIdx rest df2
      else
        match iatSet df rowIdx reportIdx (Cell.str "Brak dopasowania") with
        | none => none
        | some df1 => writeLoop priceIdx reportIdx rest df1
    else writeLoop priceIdx reportIdx rest df

/-- Model of `update_working_file` (after the source file is loaded into
`df`): resolve both column letters (returning failure on a bad letter),
auto-extend columns and rows, then run the write loop.  The
`astype("object")` conversion of the report column changes no cell
value and is omitted.  `none` is the source's `False` return. -/
def updateWorkingFile (matchingResults : List MatchResultR) (df : DataFrame)
    (priceTargetColumn matchingReportColumn : String) : Option DataFrame :=
  match columnLetterToIndex priceTargetColumn, columnLetterToIndex matchingReportColumn with
  | .ok priceIdx, .ok reportIdx =>
    let df1 := if priceIdx ≥ df.ncols then colExtendLoop df (intRange df.ncols (priceIdx + 1)) else df
    let df2 := if reportIdx ≥ df1.ncols then colExtendLoopGuard df1 (intRange df1.ncols (reportIdx + 1)) else df1
    let df3 :=
      if matchingResults.isEmpty then df2
      else
        let maxRowIdx := intListMax (matchingResults.map (fun r => r.wf_row_index))
        if maxRowIdx ≥ df2.nrows then appendNaRows df2 (maxRowIdx - df2.nrows + 1).toNat
        else df2
    writeLoop priceIdx reportIdx matchingResults df3
  | _, _ => none

/-- Cell of the 1-based spreadsheet row `rowIdx1` of the written-back
output, whose spreadsheet consists of the header row followed by the
DataFrame's data rows. -/
def outSheetCell (header : List Cell) (df : DataFrame) (rowIdx1 colIdx : Int) : Cell :=
  ((header :: df.rows).getD (rowIdx1 - 1).toNat []).getD colIdx.toNat Cell.na

/-! ## EmbeddingGenerator (`generate_embeddings`, `_process_working_descriptions`)

The embedding model call is external I/O; it is represented by an
oracle from a batch of texts to `none` (the batch raised) or the list
of vectors it returned. -/

/-- The inner save loop's count for one batch: one success per position
`j` of the batch with `j < len(embeddings)`. -/
def savedCount (batchLen embLen : Nat) : Nat :=
  ((List.range batchLen).filter (fun j => decide (j < embLen))).length

/-- Model of `_process_working_descriptions` /
`_process_reference_descriptions` (they are textually identical): the
description texts are processed in batches `descriptions[i : i + 32]`;
a batch whose embedding call raises contributes zero and the loop
continues with the next batch. -/
def processChunks (oracle : List String → Option (List (List ℚ))) (l : List String) : Nat :=
  if h : l.isEmpty then 0
  else
    (match oracle (l.take 32) with
     | none => 0
     | some embs => savedCount (l.take 32).length embs.length) +
      processChunks oracle (l.drop 32)
termination_by l.length
decreasing_by
  simp only [List.length_drop]
  cases l with
  | nil => simp [List.isEmpty] at h
  | cons x xs => simp; omega

/-- The result dictionary of `generate_embeddings`. -/
structure EmbGenResult where
  status : String
  embeddings_generated : Nat
  model_info : String
deriving DecidableEq

/-- Model of `generate_embeddings` for an existing session, given the
descriptions of both files: error when both lists are empty, otherwise
process both in batches and report `success` exactly when nothing was
dropped (`partial_success` otherwise, which is how the source spells
the degraded status). -/
def generateEmbeddings (oracle : List String → Option (List (List ℚ)))
    (wf ref : List String) : Except String EmbGenResult :=
  if wf.isEmpty ∧ ref.isEmpty then .error "Brak opisow w bazie danych dla sesji"
  else
    let totalSuccess := processChunks oracle wf + processChunks oracle ref
    let totalDescriptions := wf.length + ref.length
    .ok { status := if totalSuccess < totalDescriptions then "partial_success" else "success",
          embeddings_generated := totalSuccess,
          model_info := "BAAI/bge-small-en-v1.5" }

/-! ## PipelineOrchestrator (`compare_files`) -/

/-- Outcomes of each collaborator call made by `compare_files`, in call
order.  Each field stands for what the call would return or raise; the
orchestrator's own control flow is the object of study. -/
structure StageEnv where
  serializerValid : Bool
  filesValid : Bool
  getFilePaths : Except String (String × String)
  extractData : Except String (List WFRecord × List REFRecord)
  storeDescriptions : Except String String
  generateEmbeddingsStage : Except String EmbGenResult
  matchDescriptionsStage : Except String (List MatchResultR)
  storeMatchingResults : Bool
  resultFilePath : String
  updateWorkingFileStage : Bool
  clearData : Except String Bool

/-- The response dictionary of `compare_files`. -/
structure OrchResponse where
  status : String
  modified_file_path : Option String
  total_items : Option Nat
  matched_items : Option Nat
  error_message : Option String
deriving DecidableEq

/-- An error response of `compare_files`. -/
def errorResponse (msg : String) : OrchResponse :=
  { status := "error", modified_file_path := none, total_items := none,
    matched_items := none, error_message := some msg }

/-- Model of `OrchestratorService.compare_files`: the staged control
flow, returning the response together with whether
`processing_service.clear_data` was invoked during the run. -/
def compareFiles (env : StageEnv) : OrchResponse × Bool :=
  if ¬env.serializerValid then (errorResponse "Incorrect input parameters", false)
  else if ¬env.filesValid then (errorResponse "Incorrect files", false)
  else
    match env.getFilePaths with
    | .error e => (errorResponse e, false)
    | .ok _ =>
      match env.extractData with
      | .error e => (errorResponse e, false)
      | .ok _ =>
        match env.storeDescriptions with
        | .error e => (errorResponse ("Error while storing descriptions: " ++ e), false)
        | .ok _ =>
          match env.generateEmbeddingsStage with
          | .error e => (errorResponse ("Error while generating embedding: " ++ e), false)
          | .ok _ =>
            match env.matchDescriptionsStage with
            | .error e => (errorResponse ("Error when adjusting the descriptions: " ++ e), false)
            | .ok results =>
              if ¬env.storeMatchingResults then (errorResponse "Error while storing results", false)
              else if ¬env.updateWorkingFileStage then (errorResponse "Error while updating the file", false)
              else
                match env.clearData with
                | .error e => (errorResponse e, true)
                | .ok _ =>
                  ({ status := "success",
                     modified_file_path := some env.resultFilePath,
                     total_items := some results.length,
                     matched_items := some (results.filter (fun r => r.matched)).length,
                     error_message := none }, true)

/-- All pipeline stages up to and including the write-back succeeded. -/
def stagesOk (env : StageEnv) : Prop :=
  env.serializerValid = true ∧ env.filesValid = true ∧
  env.getFilePaths.isOk = true ∧ env.extractData.isOk = true ∧
  env.storeDescriptions.isOk = true ∧ env.generateEmbeddingsStage.isOk = true ∧
  env.matchDescriptionsStage.isOk = true ∧ env.storeMatchingResults = true ∧
  env.updateWorkingFileStage = true

instance (env : StageEnv) : Decidable (stagesOk env) := by
  unfold stagesOk; infer_instance

/-! ## List helper lemmas -/

lemma getD_set_eq {α : Type} (l : List α) (n : Nat) (a d : α) (h : n < l.length) :
    (l.set n a).getD n d = a := by
  induction l generalizing n with
  | nil => simp at h
  | cons x xs ih =>
    cases n with
    | zero => rfl
    | succ m => simpa using ih m (by simpa using h)

lemma getD_set_ne {α : Type} (l : List α) {n m : Nat} (a d : α) (h : n ≠ m) :
    (l.set n a).getD m d = l.getD m d := by
  induction l generalizing n m with
  | nil => simp
  | cons x xs ih =>
    cases n with
    | zero =>
      cases m with
      | zero => exact absurd rfl h
      | succ k => simp
    | succ n1 =>
      cases m with
      | zero => simp
      | succ k => simpa using @ih n1 k (fun hh => h (by omega))

lemma getD_append_left {α : Type} (l l2 : List α) (n : Nat) (d : α) (h : n < l.length) :
    (l ++ l2).getD n d = l.getD n d := by
  induction l generalizing n with
  | nil => simp at h
  | cons x xs ih =>
    cases n with
    | zero => rfl
    | succ m => simpa using ih m (by simpa using h)

lemma getD_append_len {α : Type} (l l2 : List α) (d : α) (n : Nat) (h : l.length = n) :
    (l ++ l2).getD n d = l2.getD 0 d := by
  subst h
  induction l with
  | nil => rfl
  | cons x xs ih => simpa using ih

lemma getD_range_map {β : Type} (g : Nat → β) (n i : Nat) (d : β) (h : i < n) :
    ((List.range n).map g).getD i d = g i := by
  induction n generalizing i with
  | zero => omega
  | succ m ih =>
    rw [List.range_succ, List.map_append]
    rcases Nat.lt_or_ge i m with hi | hi
    · rw [getD_append_left _ _ _ _ (by simpa using hi)]
      exact ih i hi
    · have him : i = m := by omega
      subst him
      have hlen : ((List.range i).map g).length = i := by simp
      rw [getD_append_len _ _ _ _ hlen]
      rfl

lemma mem_intRangeAux {i : Int} : ∀ {n : Nat} {a : Int}, i ∈ intRangeAux a n ↔ a ≤ i ∧ i < a + n := by
  intro n
  induction n with
  | zero =>
    intro a
    simp only [intRangeAux, List.not_mem_nil, false_iff]
    omega
  | succ m ih =>
    intro a
    simp only [intRangeAux, List.mem_cons, ih]
    omega

lemma mem_intRange {a b i : Int} : i ∈ intRange a b ↔ a ≤ i ∧ i < b := by
  rw [intRange, mem_intRangeAux]
  omega

lemma mem_npWhere {p : Nat → Bool} {n j : Nat} :
    j ∈ npWhere p n ↔ j < n ∧ p j = true := by
  simp [npWhere, List.mem_filter]

lemma pairwise_npWhere (p : Nat → Bool) (n : Nat) : (npWhere p n).Pairwise (· < ·) :=
  List.Pairwise.filter _ (List.pairwise_lt_range n)

lemma headD_mem {l : List Nat} (h : l ≠ []) : l.headD 0 ∈ l := by
  cases l with
  | nil => exact absurd rfl h
  | cons a t => simp

lemma pairwise_headD_le {l : List Nat} (hs : l.Pairwise (· < ·)) {j : Nat} (hj : j ∈ l) :
    l.headD 0 ≤ j := by
  cases l with
  | nil => simp at hj
  | cons a t =>
    simp only [List.headD_cons]
    rcases List.mem_cons.mp hj with rfl | h
    · exact le_refl _
    · exact le_of_lt ((List.pairwise_cons.mp hs).1 j h)

/-! ## Lemmas on `listMax`, `argmaxIdx` and `npWhere` -/

lemma listMax_cons (x : ℚ) {xs : List ℚ} (h : xs ≠ []) :
    listMax (x :: xs) = max x (listMax xs) := by
  cases xs with
  | nil => exact absurd rfl h
  | cons y t => rfl

lemma le_listMax {l : List ℚ} {a : ℚ} (ha : a ∈ l) : a ≤ listMax l := by
  induction l with
  | nil => simp at ha
  | cons x xs ih =>
    rcases List.mem_cons.mp ha with h1 | h2
    · subst h1
      cases xs with
      | nil => simp [listMax]
      | cons y t =>
        rw [listMax_cons _ (by simp)]
        exact le_max_left _ _
    · have hxs : xs ≠ [] := List.ne_nil_of_mem h2
      rw [listMax_cons _ hxs]
      exact le_trans (ih h2) (le_max_right _ _)

lemma listMax_mem {l : List ℚ} (h : l ≠ []) : listMax l ∈ l := by
  induction l with
  | nil => exact absurd rfl h
  | cons x xs ih =>
    cases xs with
    | nil => simp [listMax]
    | cons y t =>
      rw [listMax_cons x (by simp)]
      rcases le_total (listMax (y :: t)) x with hle | hle
      · simp [max_eq_left hle]
      · rw [max_eq_right hle]
        exact List.mem_cons_of_mem _ (ih (by simp))

lemma argmax_split (f : Nat → ℚ) :
    ∀ (xs : List Nat), xs ≠ [] →
      ∃ l1 l2, xs = l1 ++ (xs.getD (argmaxIdx (xs.map f)) 0) :: l2 ∧
        f (xs.getD (argmaxIdx (xs.map f)) 0) = listMax (xs.map f) ∧
        ∀ k ∈ l1, f k < listMax (xs.map f)
  | [], h => absurd rfl h
  | [x], _ => by
    refine ⟨[], [], by simp [argmaxIdx], by simp [argmaxIdx, listMax], by simp⟩
  | x :: y :: t, _ => by
    have hmapcons : (x :: y :: t).map f = f x :: (y :: t).map f := rfl
    have htail : (y :: t).map f = f y :: t.map f := rfl
    have hargeq : argmaxIdx ((x :: y :: t).map f) =
        if f x < listMax ((y :: t).map f) then argmaxIdx ((y :: t).map f) + 1 else 0 := by
      rw [hmapcons, htail]
      rfl
    have hmaxeq : listMax ((x :: y :: t).map f) = max (f x) (listMax ((y :: t).map f)) := by
      rw [hmapcons]
      exact listMax_cons _ (by simp)
    by_cases hc : f x < listMax ((y :: t).map f)
    · obtain ⟨l1, l2, hsp, hval, hlt⟩ := argmax_split f (y :: t) (by simp)
      rw [hargeq, if_pos hc]
      have hgd : (x :: y :: t).getD (argmaxIdx ((y :: t).map f) + 1) 0 =
          (y :: t).getD (argmaxIdx ((y :: t).map f)) 0 := by simp
      rw [hgd, hmaxeq, max_eq_right (le_of_lt hc)]
      refine ⟨x :: l1, l2, ?_, hval, ?_⟩
      · rw [List.cons_append, ← hsp]
      · intro k hk
        rcases List.mem_cons.mp hk with rfl | hk2
        · exact hc
        · exact hlt k hk2
    · rw [hargeq, if_neg hc]
      rw [hmaxeq, max_eq_left (not_lt.mp hc)]
      exact ⟨[], y :: t, by simp, by simp, by simp⟩

lemma map_getD_npWhere (q : ℚ → Bool) (l : List ℚ) :
    (npWhere (fun j => q (l.getD j 0)) l.length).map (fun j => l.getD j 0) = l.filter q := by
  induction l with
  | nil => rfl
  | cons x xs ih =>
    have ih2 : ((List.range xs.length).filter (fun j => q (xs.getD j 0))).map
        (fun j => xs.getD j 0) = xs.filter q := ih
    have hr : List.range (xs.length + 1) = 0 :: (List.range xs.length).map Nat.succ :=
      List.range_succ_eq_map xs.length
    have hpred : ((fun j => q ((x :: xs).getD j 0)) ∘ Nat.succ) =
        (fun j => q (xs.getD j 0)) := by
      funext j
      simp
    have hcomp : ((fun j => (x :: xs).getD j 0) ∘ Nat.succ) = (fun j => xs.getD j 0) := by
      funext j
      simp
    have hfm : ((List.range xs.length).map Nat.succ).filter
        (fun j => q ((x :: xs).getD j 0)) =
        ((List.range xs.length).filter (fun j => q (xs.getD j 0))).map Nat.succ := by
      rw [List.filter_map, hpred]
    have hmm : (((List.range xs.length).filter (fun j => q (xs.getD j 0))).map Nat.succ).map
        (fun j => (x :: xs).getD j 0) =
        ((List.range xs.length).filter (fun j => q (xs.getD j 0))).map (fun j => xs.getD j 0) := by
      rw [List.map_map, hcomp]
    simp only [npWhere, List.length_cons, hr, List.filter_cons, List.getD_cons_zero]
    by_cases hq : q x
    · simp only [hq, if_pos, List.map_cons, List.getD_cons_zero]
      rw [hfm, hmm, ih2]
    · simp only [hq, Bool.false_eq_true, if_false]
      rw [hfm, hmm, ih2]

/-! ## Lemmas on the matcher's selection logic -/

lemma matchesIndices_ne_nil {sims : List ℚ} {t : ℚ}
    (h : ∃ j, j < sims.length ∧ t ≤ sims.getD j 0) : matchesIndices sims t ≠ [] := by
  obtain ⟨j, hj, hjt⟩ := h
  intro hnil
  have hm : j ∈ matchesIndices sims t := mem_npWhere.mpr ⟨hj, by simpa using hjt⟩
  rw [hnil] at hm
  simp at hm

lemma bestSimilarity_eq_listMax {sims : List ℚ} {t : ℚ} (h : matchesIndices sims t ≠ []) :
    bestSimilarity sims t =
      listMax ((matchesIndices sims t).map (fun j => sims.getD j 0)) := by
  obtain ⟨l1, l2, hsp, hval, hlt⟩ := argmax_split (fun j => sims.getD j 0) (matchesIndices sims t) h
  exact hval

lemma bestSimilarity_eq_specBestSim {sims : List ℚ} {t : ℚ} (h : matchesIndices sims t ≠ []) :
    bestSimilarity sims t = specBestSim sims t := by
  rw [bestSimilarity_eq_listMax h]
  unfold specBestSim
  have hb := map_getD_npWhere (fun s => decide (t ≤ s)) sims
  exact congrArg listMax hb

lemma bestMatchIdx_mem {sims : List ℚ} {t : ℚ} (h : matchesIndices sims t ≠ []) :
    bestMatchIdx sims t ∈ matchesIndices sims t := by
  obtain ⟨l1, l2, hsp, hval, hlt⟩ := argmax_split (fun j => sims.getD j 0) (matchesIndices sims t) h
  rw [hsp]
  exact List.mem_append.mpr (Or.inr (List.mem_cons_self _ _))

lemma t_le_bestSimilarity {sims : List ℚ} {t : ℚ} (h : matchesIndices sims t ≠ []) :
    t ≤ bestSimilarity sims t := by
  have hm := bestMatchIdx_mem h
  have := (mem_npWhere.mp hm).2
  simpa [bestSimilarity] using this

lemma bestMatchIdx_lt_len {sims : List ℚ} {t : ℚ} (h : matchesIndices sims t ≠ []) :
    bestMatchIdx sims t < sims.length :=
  (mem_npWhere.mp (bestMatchIdx_mem h)).1

lemma bestMatches_eq_specTies {sims : List ℚ} {t : ℚ} (h : matchesIndices sims t ≠ []) :
    bestMatches sims t = specTies sims t := by
  unfold bestMatches specTies
  rw [bestSimilarity_eq_specBestSim h]

lemma bestMatchIdx_mem_specTies {sims : List ℚ} {t : ℚ} (h : matchesIndices sims t ≠ []) :
    bestMatchIdx sims t ∈ specTies sims t := by
  apply mem_npWhere.mpr
  refine ⟨bestMatchIdx_lt_len h, ?_⟩
  simp only [decide_eq_true_eq]
  exact bestSimilarity_eq_specBestSim h

lemma bestMatchIdx_le_mem_specTies {sims : List ℚ} {t : ℚ} (h : matchesIndices sims t ≠ [])
    {j : Nat} (hj : j ∈ specTies sims t) : bestMatchIdx sims t ≤ j := by
  obtain ⟨l1, l2, hsp, hval, hlt⟩ := argmax_split (fun j => sims.getD j 0) (matchesIndices sims t) h
  have hbm : bestMatchIdx sims t =
      (matchesIndices sims t).getD
        (argmaxIdx ((matchesIndices sims t).map (fun j => sims.getD j 0))) 0 := rfl
  rw [← hbm] at hsp
  obtain ⟨hjlen, hjval⟩ := mem_npWhere.mp hj
  have hjval2 : sims.getD j 0 = specBestSim sims t := by simpa using hjval
  have hjc : j ∈ matchesIndices sims t := by
    apply mem_npWhere.mpr
    refine ⟨hjlen, ?_⟩
    simp only [decide_eq_true_eq]
    rw [hjval2, ← bestSimilarity_eq_specBestSim h]
    exact t_le_bestSimilarity h
  have hpw : (l1 ++ bestMatchIdx sims t :: l2).Pairwise (· < ·) := by
    rw [← hsp]
    exact pairwise_npWhere _ _
  rw [hsp] at hjc
  rcases List.mem_append.mp hjc with h1 | h2
  · exfalso
    have := hlt j h1
    rw [← bestSimilarity_eq_listMax h, bestSimilarity_eq_specBestSim h, hjval2] at this
    exact lt_irrefl _ this
  · rcases List.mem_cons.mp h2 with rfl | h3
    · exact le_refl _
    · have := (List.pairwise_cons.mp (List.pairwise_append.mp hpw).2.1).1 j h3
      exact le_of_lt this

lemma specTies_ne_nil {sims : List ℚ} {t : ℚ} (h : matchesIndices sims t ≠ []) :
    specTies sims t ≠ [] :=
  List.ne_nil_of_mem (bestMatchIdx_mem_specTies h)

lemma bestMatchIdx_eq_headD {sims : List ℚ} {t : ℚ} (h : matchesIndices sims t ≠ []) :
    bestMatchIdx sims t = (specTies sims t).headD 0 := by
  have h1 : (specTies sims t).headD 0 ≤ bestMatchIdx sims t :=
    pairwise_headD_le (pairwise_npWhere _ _) (bestMatchIdx_mem_specTies h)
  have h2 : bestMatchIdx sims t ≤ (specTies sims t).headD 0 :=
    bestMatchIdx_le_mem_specTies h (headD_mem (specTies_ne_nil h))
  omega

lemma status_if_eq {n : Nat} (h : n ≠ 0) :
    (if 1 < n then "multiple_matches_best_selected" else "matched") =
      (if n = 1 then "matched" else "multiple_matches_best_selected") := by
  rcases n with _ | n1
  · exact absurd rfl h
  · rcases n1 with _ | n2
    · rfl
    · rw [if_pos (by omega), if_neg (by omega)]

lemma calcRow_pos (refData : List REFRecord) (t : ℚ) (wf : WFRecord) (sims : List ℚ)
    (h : matchesIndices sims t ≠ []) :
    calcRow refData t wf sims = specMatchedResult wf refData sims t := by
  unfold specMatchedResult
  have hne : ¬((matchesIndices sims t).isEmpty = true) := by
    simpa [List.isEmpty_iff] using h
  have hlen0 : (specTies sims t).length ≠ 0 := by
    intro h0
    exact specTies_ne_nil h (List.length_eq_zero.mp h0)
  simp only [calcRow]
  rw [if_neg hne]
  rw [bestMatches_eq_specTies h, bestSimilarity_eq_specBestSim h, bestMatchIdx_eq_headD h]
  unfold specSelect
  cases hfind : (specTies sims t).find? (tiePref wf.description refData sims) with
  | none => simp only [hfind, status_if_eq hlen0]
  | some j => simp only [hfind, status_if_eq hlen0]

lemma calcSimilarityResults_getD (wfData : List WFRecord) (refData : List REFRecord)
    (sim : List (List ℚ)) (t : ℚ) (i : Nat) (hi : i < wfData.length) :
    (calcSimilarityResults wfData refData sim t).getD i (noMatchResult junkWF) =
      calcRow refData t (wfData.getD i junkWF) (sim.getD i []) := by
  unfold calcSimilarityResults
  exact getD_range_map _ _ _ _ hi

lemma specSelect_pref {wfDesc : String} {refData : List REFRecord} {sims : List ℚ} {t : ℚ}
    (h : ∃ j ∈ specTies sims t, tiePref wfDesc refData sims j = true) :
    tiePref wfDesc refData sims (specSelect wfDesc refData sims t) = true := by
  unfold specSelect
  cases hfind : (specTies sims t).find? (tiePref wfDesc refData sims) with
  | none =>
    exfalso
    obtain ⟨j, hj, hpj⟩ := h
    have := List.find?_eq_none.mp hfind j hj
    exact this hpj
  | some j => exact List.find?_some hfind

lemma specSelect_no_pref {wfDesc : String} {refData : List REFRecord} {sims : List ℚ} {t : ℚ}
    (h : ∀ j ∈ specTies sims t, tiePref wfDesc refData sims j = false) :
    specSelect wfDesc refData sims t = (specTies sims t).headD 0 := by
  unfold specSelect
  cases hfind : (specTies sims t).find? (tiePref wfDesc refData sims) with
  | none => rfl
  | some j =>
    exfalso
    have hmem := List.mem_of_find?_eq_some hfind
    have hp := List.find?_some hfind
    rw [h j hmem] at hp
    exact Bool.false_ne_true hp

/-! ## Claim theorems -/

/-- C2: in the matching loop, for every WF item whose set of REF
candidates at or above the threshold is non-empty, the produced result
is the matched record built from the selected tie among the ties
achieving the exact maximum similarity, with `matching_status`
`"matched"` exactly when there is one tie; the selected tie satisfies
the 100-similarity / trimmed-equality preference whenever some tie
does (regardless of its position), and is the first tie in REF
iteration order otherwise. -/
theorem c2_tie_break (wfData : List WFRecord) (refData : List REFRecord)
    (sim : List (List ℚ)) (threshold : ℚ) (i : Nat) (hi : i < wfData.length)
    (hrow : (sim.getD i []).length = refData.length)
    (hcand : ∃ j, j < refData.length ∧ threshold ≤ (sim.getD i []).getD j 0) :
    (calcSimilarityResults wfData refData sim threshold).getD i (noMatchResult junkWF) =
      specMatchedResult (wfData.getD i junkWF) refData (sim.getD i []) threshold ∧
    ((∃ j ∈ specTies (sim.getD i []) threshold,
        tiePref (wfData.getD i junkWF).description refData (sim.getD i []) j = true) →
      tiePref (wfData.getD i junkWF).description refData (sim.getD i [])
        (specSelect (wfData.getD i junkWF).description refData (sim.getD i []) threshold) = true) ∧
    ((∀ j ∈ specTies (sim.getD i []) threshold,
        tiePref (wfData.getD i junkWF).description refData (sim.getD i []) j = false) →
      specSelect (wfData.getD i junkWF).description refData (sim.getD i []) threshold =
        (specTies (sim.getD i []) threshold).headD 0) := by
  have hne : matchesIndices (sim.getD i []) threshold ≠ [] := by
    apply matchesIndices_ne_nil
    obtain ⟨j, hj, hjt⟩ := hcand
    exact ⟨j, by omega, hjt⟩
  refine ⟨?_, specSelect_pref, specSelect_no_pref⟩
  rw [calcSimilarityResults_getD wfData refData sim threshold i hi]
  exact calcRow_pos _ _ _ _ hne

/-- C2 witness: a concrete session with two equal-similarity ties where
the second tie's trimmed description equals the WF description, so the
second tie is selected and the status reports multiple matches. -/
theorem c2_tie_break_witness :
    (calcSimilarityResults [⟨5, "x"⟩] [⟨2, "aa", 1⟩, ⟨3, "x", 2⟩] [[80, 80]] 50).getD 0
        (noMatchResult junkWF) =
      specMatchedResult ⟨5, "x"⟩ [⟨2, "aa", 1⟩, ⟨3, "x", 2⟩] [80, 80] 50 ∧
    ((∃ j ∈ specTies [80, 80] 50, tiePref "x" [⟨2, "aa", 1⟩, ⟨3, "x", 2⟩] [80, 80] j = true) →
      tiePref "x" [⟨2, "aa", 1⟩, ⟨3, "x", 2⟩] [80, 80]
        (specSelect "x" [⟨2, "aa", 1⟩, ⟨3, "x", 2⟩] [80, 80] 50) = true) ∧
    ((∀ j ∈ specTies [80, 80] 50, tiePref "x" [⟨2, "aa", 1⟩, ⟨3, "x", 2⟩] [80, 80] j = false) →
      specSelect "x" [⟨2, "aa", 1⟩, ⟨3, "x", 2⟩] [80, 80] 50 =
        (specTies [80, 80] 50).headD 0) :=
  c2_tie_break [⟨5, "x"⟩] [⟨2, "aa", 1⟩, ⟨3, "x", 2⟩] [[80, 80]] 50 0 (by decide)
    (by decide) ⟨1, by decide, by decide⟩

/-- C9: the matcher produces exactly one result per WF record, in WF
iteration order (result `i` carries WF record `i`'s row index and
description), and an unmatched result has all optional fields `none`
and status `"no_match"`. -/
theorem c9_one_result_per_wf (wfData : List WFRecord) (refData : List REFRecord)
    (sim : List (List ℚ)) (threshold : ℚ) :
    (calcSimilarityResults wfData refData sim threshold).length = wfData.length ∧
    ∀ i, i < wfData.length →
      ((calcSimilarityResults wfData refData sim threshold).getD i
          (noMatchResult junkWF)).wf_row_index = (wfData.getD i junkWF).row_index ∧
      ((calcSimilarityResults wfData refData sim threshold).getD i
          (noMatchResult junkWF)).wf_description = (wfData.getD i junkWF).description ∧
      (((calcSimilarityResults wfData refData sim threshold).getD i
          (noMatchResult junkWF)).matched = false →
        ((calcSimilarityResults wfData refData sim threshold).getD i
            (noMatchResult junkWF)).ref_row_index = none ∧
        ((calcSimilarityResults wfData refData sim threshold).getD i
            (noMatchResult junkWF)).ref_description = none ∧
        ((calcSimilarityResults wfData refData sim threshold).getD i
            (noMatchResult junkWF)).similarity = none ∧
        ((calcSimilarityResults wfData refData sim threshold).getD i
            (noMatchResult junkWF)).price = none ∧
        ((calcSimilarityResults wfData refData sim threshold).getD i
            (noMatchResult junkWF)).matching_status = "no_match") := by
  constructor
  · simp [calcSimilarityResults]
  · intro i hi
    rw [calcSimilarityResults_getD wfData refData sim threshold i hi]
    by_cases hc : matchesIndices (sim.getD i []) threshold = []
    · have hce : (matchesIndices (sim.getD i []) threshold).isEmpty = true := by
        simp only [List.isEmpty_iff]
        exact hc
      unfold calcRow
      rw [if_pos hce]
      simp [noMatchResult]
    · have hce : ¬((matchesIndices (sim.getD i []) threshold).isEmpty = true) := by
        simp only [List.isEmpty_iff]
        exact hc
      unfold calcRow
      rw [if_neg hce]
      simp

/-- C9 witness: one WF record below the threshold yields one unmatched
result carrying the WF fields. -/
theorem c9_one_result_per_wf_witness :
    (calcSimilarityResults [⟨3, "a"⟩] [⟨2, "b", 1⟩] [[10]] 50).length = 1 ∧
    ((calcSimilarityResults [⟨3, "a"⟩] [⟨2, "b", 1⟩] [[10]] 50).getD 0
        (noMatchResult junkWF)).wf_row_index = 3 ∧
    ((calcSimilarityResults [⟨3, "a"⟩] [⟨2, "b", 1⟩] [[10]] 50).getD 0
        (noMatchResult junkWF)).matching_status = "no_match" := by
  have h := c9_one_result_per_wf [⟨3, "a"⟩] [⟨2, "b", 1⟩] [[10]] 50
  have h2 := h.2 0 (by decide)
  refine ⟨h.1, h2.1, ?_⟩
  exact (h2.2.2 (by decide)).2.2.2.2

/-- C4: `match_descriptions` fails exactly when the threshold is out of
[0,100], the session has zero WF or zero REF records, or some record
lacks an embedding; and with valid threshold and non-empty inputs, a
missing embedding yields the missing-embedding error itself — no result
list is produced, so no similarity comparison happens. -/
theorem c4_match_descriptions_errors (wf : List StoredWfDesc) (ref : List StoredRefDesc)
    (t : ℚ) (sim : List (List ℚ)) :
    ((matchDescriptions wf ref t sim).isOk = false ↔
      (¬(0 ≤ t ∧ t ≤ 100) ∨ wf = [] ∨ ref = [] ∨
        (∃ d ∈ wf, d.embedding = none) ∨ (∃ d ∈ ref, d.embedding = none))) ∧
    ((0 ≤ t ∧ t ≤ 100) → wf ≠ [] → ref ≠ [] →
      ((∃ d ∈ wf, d.embedding = none) ∨ (∃ d ∈ ref, d.embedding = none)) →
      (matchDescriptions wf ref t sim = .error .missingWfEmbedding ∨
        matchDescriptions wf ref t sim = .error .missingRefEmbedding)) := by
  have hwfe : wf.isEmpty = true ↔ wf = [] := List.isEmpty_iff
  have hrefe : ref.isEmpty = true ↔ ref = [] := List.isEmpty_iff
  have hwfa : (wf.any fun d => d.embedding.isNone) = true ↔ ∃ d ∈ wf, d.embedding = none := by
    simp [List.any_eq_true, Option.isNone_iff_eq_none]
  have hrefa : (ref.any fun d => d.embedding.isNone) = true ↔ ∃ d ∈ ref, d.embedding = none := by
    simp [List.any_eq_true, Option.isNone_iff_eq_none]
  unfold matchDescriptions
  split_ifs with h1 h2 h3 h4 h5
  · constructor
    · simp only [Except.isOk]
      constructor
      · intro _
        exact Or.inr (Or.inl (hwfe.mp h2))
      · intro _
        rfl
    · intro _ hwf _ _
      exact absurd (hwfe.mp h2) hwf
  · constructor
    · simp only [Except.isOk]
      constructor
      · intro _
        exact Or.inr (Or.inr (Or.inl (hrefe.mp h3)))
      · intro _
        rfl
    · intro _ _ href _
      exact absurd (hrefe.mp h3) href
  · constructor
    · simp only [Except.isOk]
      constructor
      · intro _
        exact Or.inr (Or.inr (Or.inr (Or.inl (hwfa.mp h4))))
      · intro _
        rfl
    · intro _ _ _ _
      exact Or.inl rfl
  · constructor
    · simp only [Except.isOk]
      constructor
      · intro _
        exact Or.inr (Or.inr (Or.inr (Or.inr (hrefa.mp h5))))
      · intro _
        rfl
    · intro _ _ _ _
      exact Or.inr rfl
  · constructor
    · simp only [Except.isOk]
      constructor
      · intro hfalse
        simp [Except.toBool] at hfalse
      · intro hcases
        exfalso
        rcases hcases with hc | hc | hc | hc | hc
        · exact hc h1
        · exact h2 (hwfe.mpr hc)
        · exact h3 (hrefe.mpr hc)
        · exact h4 (hwfa.mpr hc)
        · exact h5 (hrefa.mpr hc)
    · intro _ _ _ hmiss
      exfalso
      rcases hmiss with hc | hc
      · exact h4 (hwfa.mpr hc)
      · exact h5 (hrefa.mpr hc)
  · constructor
    · simp only [Except.isOk]
      constructor
      · intro _
        exact Or.inl h1
      · intro _
        rfl
    · intro ht _ _ _
      exact absurd ht h1

/-- C4 witness: a session whose single WF record lacks its embedding is
rejected with the missing-embedding error. -/
theorem c4_match_descriptions_errors_witness :
    ((matchDescriptions [⟨1, "a", none⟩] [⟨2, "b", 1, some [1]⟩] 50 [[80]]).isOk = false ↔
      (¬((0 : ℚ) ≤ 50 ∧ (50 : ℚ) ≤ 100) ∨ ([⟨1, "a", none⟩] : List StoredWfDesc) = [] ∨
        ([⟨2, "b", 1, some [1]⟩] : List StoredRefDesc) = [] ∨
        (∃ d ∈ ([⟨1, "a", none⟩] : List StoredWfDesc), d.embedding = none) ∨
        (∃ d ∈ ([⟨2, "b", 1, some [1]⟩] : List StoredRefDesc), d.embedding = none))) ∧
    (((0 : ℚ) ≤ 50 ∧ (50 : ℚ) ≤ 100) → ([⟨1, "a", none⟩] : List StoredWfDesc) ≠ [] →
      ([⟨2, "b", 1, some [1]⟩] : List StoredRefDesc) ≠ [] →
      ((∃ d ∈ ([⟨1, "a", none⟩] : List StoredWfDesc), d.embedding = none) ∨
        (∃ d ∈ ([⟨2, "b", 1, some [1]⟩] : List StoredRefDesc), d.embedding = none)) →
      (matchDescriptions [⟨1, "a", none⟩] [⟨2, "b", 1, some [1]⟩] 50 [[80]] =
          .error .missingWfEmbedding ∨
        matchDescriptions [⟨1, "a", none⟩] [⟨2, "b", 1, some [1]⟩] 50 [[80]] =
          .error .missingRefEmbedding)) :=
  c4_match_descriptions_errors [⟨1, "a", none⟩] [⟨2, "b", 1, some [1]⟩] 50 [[80]]

/-! Column addressing lemmas for C6 and C10 -/

lemma letterFold_ok {cs : List Char} (h : ∀ c ∈ cs, 'A' ≤ c ∧ c ≤ 'Z') :
    ∀ acc : Int, letterFold cs acc = .ok (acc * (26 : Int) ^ cs.length + base26Value cs) := by
  induction cs with
  | nil =>
    intro acc
    simp [letterFold, base26Value]
  | cons c rest ih =>
    intro acc
    have hc := h c (List.mem_cons_self c rest)
    rw [letterFold, if_pos hc]
    rw [ih (fun x hx => h x (List.mem_cons_of_mem c hx))]
    congr 1
    show (acc * 26 + ((c.toNat : Int) - 65 + 1)) * 26 ^ rest.length + base26Value rest =
      acc * 26 ^ (rest.length + 1) + (letterDigit c * 26 ^ rest.length + base26Value rest)
    unfold letterDigit
    ring

lemma letterFold_error {cs : List Char} (h : ∃ c ∈ cs, ¬('A' ≤ c ∧ c ≤ 'Z')) :
    ∀ acc : Int, letterFold cs acc = .error "Nieprawidlowy znak w oznaczeniu kolumny" := by
  induction cs with
  | nil => simp at h
  | cons c rest ih =>
    intro acc
    by_cases hc : 'A' ≤ c ∧ c ≤ 'Z'
    · rw [letterFold, if_pos hc]
      apply ih
      obtain ⟨d, hd, hnd⟩ := h
      rcases List.mem_cons.mp hd with h1 | h2
      · subst h1
        exact absurd hc hnd
      · exact ⟨d, h2, hnd⟩
    · rw [letterFold, if_neg hc]

/-- C6 (amended): `_column_letter_to_index` treats its upper-cased
argument as a base-26 numeral with digits A=1…Z=26 and returns the value
minus 1 for every non-empty string whose upper-cased characters all lie
in A–Z (lowercase letters are accepted through the case fold), and
raises exactly when some character of the upper-cased argument falls
outside A–Z. -/
theorem c6_letter_to_index (s : String) :
    (s.data ≠ [] → (∀ c ∈ s.data.map Char.toUpper, 'A' ≤ c ∧ c ≤ 'Z') →
      columnLetterToIndex s = .ok (base26Value (s.data.map Char.toUpper) - 1)) ∧
    ((∃ c ∈ s.data.map Char.toUpper, ¬('A' ≤ c ∧ c ≤ 'Z')) →
      columnLetterToIndex s = .error "Nieprawidlowy znak w oznaczeniu kolumny") := by
  constructor
  · intro _ hall
    unfold columnLetterToIndex
    rw [letterFold_ok hall 0]
    simp [Except.map]
  · intro hbad
    unfold columnLetterToIndex
    rw [letterFold_error hbad 0]
    rfl

/-- C6 witness: the two-letter column "AB" resolves to index 27. -/
theorem c6_letter_to_index_witness : columnLetterToIndex "AB" = Except.ok 27 := by
  have h := (c6_letter_to_index "AB").1 (by decide) (by decide)
  rw [h]
  rfl

/-- C6 counterexample: the claim demands an error for every argument
containing a character outside A–Z, but the lowercase letter "a" (a
character outside A–Z) is accepted and maps to index 0 because the
source upper-cases its input first. -/
theorem c6_lowercase_counterexample : columnLetterToIndex "a" = Except.ok 0 := by
  rfl

/-! Extraction-loop lemmas for C10, C1 and C3 -/

lemma iloc_neg_one_col (df : DataFrame) (hc : 0 < df.ncols) (i : Int) :
    iloc df i (-1) = iloc df i (df.ncols - 1) := by
  simp only [iloc]
  have e1 : (if (-1 : Int) < 0 then -1 + df.ncols else -1) = df.ncols - 1 := by
    rw [if_pos (by norm_num)]
    ring
  have e2 : (if df.ncols - 1 < 0 then df.ncols - 1 + df.ncols else df.ncols - 1) =
      df.ncols - 1 := by
    rw [if_neg (by omega)]
  rw [e1, e2]

lemma extractLoopWF_congr (df : DataFrame) {c1 c2 : Int} :
    ∀ l : List Int, (∀ i ∈ l, iloc df (i - 1) c1 = iloc df (i - 1) c2) →
      extractLoopWF df c1 l = extractLoopWF df c2 l := by
  intro l
  induction l with
  | nil => intro _; rfl
  | cons i rest ih =>
    intro h
    have h1 := h i (List.mem_cons_self _ _)
    have h2 : ∀ j ∈ rest, iloc df (j - 1) c1 = iloc df (j - 1) c2 :=
      fun j hj => h j (List.mem_cons_of_mem _ hj)
    simp only [extractLoopWF]
    rw [h1, ih h2]

lemma extractLoopWF_isOk (df : DataFrame) (c : Int) :
    ∀ l : List Int, (∀ i ∈ l, (iloc df (i - 1) c).isOk = true) →
      (extractLoopWF df c l).isOk = true := by
  intro l
  induction l with
  | nil => intro _; rfl
  | cons i rest ih =>
    intro h
    have h1 := h i (List.mem_cons_self _ _)
    have h2 : ∀ j ∈ rest, (iloc df (j - 1) c).isOk = true :=
      fun j hj => h j (List.mem_cons_of_mem _ hj)
    simp only [extractLoopWF]
    cases hcell : iloc df (i - 1) c with
    | error e =>
      rw [hcell] at h1
      simp [Except.isOk, Except.toBool] at h1
    | ok cell =>
      dsimp only
      by_cases hna : pyIsNa cell = true
      · simp only [hna, if_pos]
        exact ih h2
      · rw [if_neg hna]
        by_cases hdesc : pyStrip (pyStr cell) = ""
        · rw [if_pos hdesc]
          exact ih h2
        · rw [if_neg hdesc]
          cases hrest : extractLoopWF df c rest with
          | error e =>
            have hok := ih h2
            rw [hrest] at hok
            simp [Except.isOk, Except.toBool] at hok
          | ok res => rfl

lemma iloc_ok_of_bounds (df : DataFrame) {i c : Int}
    (hi : 0 ≤ (if i < 0 then i + df.nrows else i) ∧
      (if i < 0 then i + df.nrows else i) < df.nrows)
    (hcb : 0 ≤ (if c < 0 then c + df.ncols else c) ∧
      (if c < 0 then c + df.ncols else c) < df.ncols) :
    (iloc df i c).isOk = true := by
  simp only [iloc]
  rw [if_pos ⟨hi.1, hi.2, hcb.1, hcb.2⟩]
  rfl

/-- C10: `_column_letter_to_index` maps the empty string to `-1`
without raising; with an empty description-column letter and at least
one column, working-file extraction passes the column-existence check
and succeeds for every in-range request, and it returns exactly the
records of an extraction addressed at the last column — the empty
letter silently reads the last column of the table. -/
theorem c10_empty_column_letter :
    columnLetterToIndex "" = Except.ok (-1) ∧
    (∀ (df : DataFrame) (r : RowRange), 0 < df.ncols → 1 ≤ r.start →
      (extractWorkingFileData df "" r).isOk = true) ∧
    (∀ (df : DataFrame) (r : RowRange) (lastCol : String), 0 < df.ncols →
      columnLetterToIndex lastCol = .ok (df.ncols - 1) →
      extractWorkingFileData df "" r = extractWorkingFileData df lastCol r) := by
  refine ⟨rfl, ?_, ?_⟩
  · intro df r hc hstart
    unfold extractWorkingFileData
    simp only [show columnLetterToIndex "" = Except.ok (-1) from rfl]
    rw [if_neg (by omega)]
    rw [if_neg (by omega)]
    apply extractLoopWF_isOk
    intro i hi
    have hmem := mem_intRange.mp hi
    have hend : (if r.stop > df.nrows then df.nrows else r.stop) ≤ df.nrows := by
      split <;> omega
    apply iloc_ok_of_bounds
    · constructor
      · split <;> omega
      · split <;> omega
    · constructor
      · rw [if_pos (by norm_num)]
        omega
      · rw [if_pos (by norm_num)]
        omega
  · intro df r lastCol hc hlast
    unfold extractWorkingFileData
    rw [hlast]
    simp only [show columnLetterToIndex "" = Except.ok (-1) from rfl]
    have hninc : ¬((-1 : Int) ≥ df.ncols) := by omega
    have hninc2 : ¬(df.ncols - 1 ≥ df.ncols) := by omega
    by_cases hs : r.start - 1 < 0
    · rw [if_pos hs, if_pos hs]
    · rw [if_neg hs, if_neg hs, if_neg hninc, if_neg hninc2]
      exact extractLoopWF_congr df _ (fun i _ => iloc_neg_one_col df hc (i - 1))

/-- C10 witness: on a two-column table the empty column letter extracts
exactly what addressing the last column "B" extracts, successfully. -/
theorem c10_empty_column_letter_witness :
    columnLetterToIndex "" = Except.ok (-1) ∧
    (extractWorkingFileData ⟨["D", "P"], [[Cell.str "a", Cell.str "p1"], [Cell.str "b", Cell.str "p2"]]⟩
        "" ⟨2, 3⟩).isOk = true ∧
    extractWorkingFileData ⟨["D", "P"], [[Cell.str "a", Cell.str "p1"], [Cell.str "b", Cell.str "p2"]]⟩
        "" ⟨2, 3⟩ =
      extractWorkingFileData ⟨["D", "P"], [[Cell.str "a", Cell.str "p1"], [Cell.str "b", Cell.str "p2"]]⟩
        "B" ⟨2, 3⟩ := by
  have h := c10_empty_column_letter
  refine ⟨h.1, h.2.1 _ _ (by decide) (by decide), h.2.2 _ _ "B" (by decide) (by rfl)⟩

/-- C3, evaluated at the failing input: on a reference file with one
data row, requesting rows 1–3 makes `_extract_reference_file_data`
raise (the out-of-bounds read propagates as the loop reaches past the
table) instead of clamping, and the records differ from the run with
`end` equal to the row count; the working-file extractor, by contrast,
clamps the same request and returns exactly the rows of the
`end = row count` run. -/
theorem c3_ref_extraction_does_not_clamp :
    extractReferenceFileData ⟨["D", "P"], [[Cell.str "a", Cell.num 5]]⟩ "A" ⟨1, 3⟩ "B" =
      Except.error "single positional indexer is out-of-bounds" ∧
    extractReferenceFileData ⟨["D", "P"], [[Cell.str "a", Cell.num 5]]⟩ "A" ⟨1, 1⟩ "B" =
      Except.ok [⟨1, "a", 5⟩] ∧
    extractWorkingFileData ⟨["D", "P"], [[Cell.str "a", Cell.num 5]]⟩ "A" ⟨1, 3⟩ =
      extractWorkingFileData ⟨["D", "P"], [[Cell.str "a", Cell.num 5]]⟩ "A" ⟨1, 1⟩ := by
  refine ⟨by decide, by decide, by decide⟩

/-- C8: `compare_files` invokes `clear_data` exactly when every stage
through the write-back succeeded; a run in which any stage fails
returns an error response and never invokes cleanup. -/
theorem c8_cleanup_only_after_writeback (env : StageEnv) :
    ((compareFiles env).2 = true ↔ stagesOk env) ∧
    (¬stagesOk env → (compareFiles env).1.status = "error" ∧ (compareFiles env).2 = false) := by
  obtain ⟨sv, fv, gfp, ex, sd, ge, md, smr, rfp, uwf, cd⟩ := env
  cases sv <;> cases fv <;> cases gfp <;> cases ex <;> cases sd <;> cases ge <;> cases md <;>
    cases smr <;> cases uwf <;> cases cd <;>
      simp [compareFiles, stagesOk, errorResponse, Except.isOk, Except.toBool]

/-- C8 witness: a run whose write-back fails — the theorem instantiated
there shows cleanup is not invoked and the response is an error. -/
theorem c8_cleanup_only_after_writeback_witness :
    ((compareFiles ⟨true, true, .ok ("w", "r"), .ok ([], []), .ok "sid",
        .ok ⟨"success", 0, "m"⟩, .ok [], true, "out", false, .ok true⟩).2 = true ↔
      stagesOk ⟨true, true, .ok ("w", "r"), .ok ([], []), .ok "sid",
        .ok ⟨"success", 0, "m"⟩, .ok [], true, "out", false, .ok true⟩) ∧
    (¬stagesOk ⟨true, true, .ok ("w", "r"), .ok ([], []), .ok "sid",
        .ok ⟨"success", 0, "m"⟩, .ok [], true, "out", false, .ok true⟩ →
      (compareFiles ⟨true, true, .ok ("w", "r"), .ok ([], []), .ok "sid",
          .ok ⟨"success", 0, "m"⟩, .ok [], true, "out", false, .ok true⟩).1.status = "error" ∧
      (compareFiles ⟨true, true, .ok ("w", "r"), .ok ([], []), .ok "sid",
          .ok ⟨"success", 0, "m"⟩, .ok [], true, "out", false, .ok true⟩).2 = false) :=
  c8_cleanup_only_after_writeback ⟨true, true, .ok ("w", "r"), .ok ([], []), .ok "sid",
    .ok ⟨"success", 0, "m"⟩, .ok [], true, "out", false, .ok true⟩


/-! Batched-embedding lemmas for C7 -/

lemma processChunks_nil (oracle : List String → Option (List (List ℚ))) :
    processChunks oracle [] = 0 := by
  rw [processChunks]
  rfl

lemma processChunks_eq (oracle : List String → Option (List (List ℚ)))
    (l : List String) (h : l ≠ []) :
    processChunks oracle l =
      (match oracle (l.take 32) with
       | none => 0
       | some embs => savedCount (l.take 32).length embs.length) +
        processChunks oracle (l.drop 32) := by
  rw [processChunks]
  rw [dif_neg (by simp only [List.isEmpty_iff]; exact h)]

lemma savedCount_le (b e : Nat) : savedCount b e ≤ b := by
  calc savedCount b e ≤ (List.range b).length := List.length_filter_le _ _
  _ = b := List.length_range b

lemma processChunks_le_aux (oracle : List String → Option (List (List ℚ))) :
    ∀ (n : Nat) (l : List String), l.length ≤ n → processChunks oracle l ≤ l.length := by
  intro n
  induction n with
  | zero =>
    intro l hl
    have h0 : l = [] := List.length_eq_zero.mp (by omega)
    subst h0
    rw [processChunks_nil]
    exact Nat.zero_le _
  | succ m ihm =>
    intro l hl
    by_cases h : l = []
    · subst h
      rw [processChunks_nil]
      exact Nat.zero_le _
    · rw [processChunks_eq oracle l h]
      have hlen0 : 0 < l.length := List.length_pos.mpr h
      have hdl : (l.drop 32).length = l.length - 32 := List.length_drop 32 l
      have ih2 := ihm (l.drop 32) (by omega)
      have htake : (l.take 32).length = min 32 l.length := List.length_take 32 l
      cases horacle : oracle (l.take 32) with
      | none =>
        dsimp only
        omega
      | some embs =>
        dsimp only
        have := savedCount_le (l.take 32).length embs.length
        omega

lemma processChunks_le (oracle : List String → Option (List (List ℚ))) (l : List String) :
    processChunks oracle l ≤ l.length :=
  processChunks_le_aux oracle l.length l (le_refl _)

lemma processChunks_append_aux (oracle : List String → Option (List (List ℚ))) :
    ∀ (n : Nat) (l1 l2 : List String), l1.length ≤ n → 32 ∣ l1.length →
      processChunks oracle (l1 ++ l2) = processChunks oracle l1 + processChunks oracle l2 := by
  intro n
  induction n with
  | zero =>
    intro l1 l2 hl hdvd
    have h0 : l1 = [] := List.length_eq_zero.mp (by omega)
    subst h0
    rw [List.nil_append, processChunks_nil]
    omega
  | succ m ihm =>
    intro l1 l2 hl hdvd
    by_cases h1 : l1 = []
    · subst h1
      rw [List.nil_append, processChunks_nil]
      omega
    · have hlen0 : 0 < l1.length := List.length_pos.mpr h1
      have hlen : 32 ≤ l1.length := Nat.le_of_dvd hlen0 hdvd
      have hne2 : l1 ++ l2 ≠ [] := by simp [h1]
      rw [processChunks_eq oracle _ hne2, processChunks_eq oracle _ h1]
      rw [List.take_append_eq_append_take, List.drop_append_eq_append_drop]
      have ht : 32 - l1.length = 0 := by omega
      rw [ht]
      simp only [List.take_zero, List.append_nil, List.drop_zero]
      have hdl : (l1.drop 32).length = l1.length - 32 := List.length_drop 32 l1
      have hdvd2 : 32 ∣ (l1.drop 32).length := by
        rw [hdl]
        exact Nat.dvd_sub' hdvd (dvd_refl 32)
      rw [ihm (l1.drop 32) l2 (by omega) hdvd2]
      omega

lemma processChunks_append (oracle : List String → Option (List (List ℚ)))
    (l1 l2 : List String) (hdvd : 32 ∣ l1.length) :
    processChunks oracle (l1 ++ l2) = processChunks oracle l1 + processChunks oracle l2 :=
  processChunks_append_aux oracle l1.length l1 l2 (le_refl _) hdvd

/-- C7: descriptions are embedded in fixed batches of 32 — the count of
one non-empty list is the first batch's contribution (zero when the
batch's embedding call fails) plus the count of the remainder; a failing
32-aligned prefix never suppresses the contribution of the batches after
it; and `generate_embeddings` reports `"success"` exactly when the
generated count equals the total number of descriptions. -/
theorem c7_batched_embedding_generation (oracle : List String → Option (List (List ℚ))) :
    (∀ l : List String, l ≠ [] →
      processChunks oracle l =
        (match oracle (l.take 32) with
         | none => 0
         | some embs => savedCount (l.take 32).length embs.length) +
          processChunks oracle (l.drop 32)) ∧
    (∀ l1 l2 : List String, 32 ∣ l1.length →
      processChunks oracle (l1 ++ l2) = processChunks oracle l1 + processChunks oracle l2) ∧
    (∀ (wf ref : List String) (res : EmbGenResult),
      generateEmbeddings oracle wf ref = .ok res →
      (res.status = "success" ↔ res.embeddings_generated = wf.length + ref.length)) := by
  refine ⟨fun l h => processChunks_eq oracle l h, processChunks_append oracle, ?_⟩
  intro wf ref res h
  unfold generateEmbeddings at h
  split_ifs at h
  have hinj := Except.ok.inj h
  subst hinj
  dsimp only
  have hwle := processChunks_le oracle wf
  have hrle := processChunks_le oracle ref
  by_cases hlt : processChunks oracle wf + processChunks oracle ref < wf.length + ref.length
  · rw [if_pos hlt]
    constructor
    · intro hne
      simp at hne
    · intro heq
      exfalso
      omega
  · rw [if_neg hlt]
    constructor
    · intro _
      omega
    · intro _
      rfl

/-- C7 witness: with an oracle that fails on singleton batches, one WF
description and two REF descriptions give two generated embeddings and
the `"partial_success"` status, and the iff of the theorem holds at that
run. -/
theorem c7_batched_embedding_generation_witness :
    ((⟨"partial_success", 2, "BAAI/bge-small-en-v1.5"⟩ : EmbGenResult).status = "success" ↔
      (⟨"partial_success", 2, "BAAI/bge-small-en-v1.5"⟩ : EmbGenResult).embeddings_generated =
        (["a"] : List String).length + (["b", "c"] : List String).length) ∧
    processChunks (fun ts => if ts.length = 1 then none else some (ts.map (fun _ => [1])))
        ((List.replicate 32 "x") ++ ["y"]) =
      processChunks (fun ts => if ts.length = 1 then none else some (ts.map (fun _ => [1])))
        (List.replicate 32 "x") +
        processChunks (fun ts => if ts.length = 1 then none else some (ts.map (fun _ => [1])))
          ["y"] := by
  have h := c7_batched_embedding_generation
    (fun ts => if ts.length = 1 then none else some (ts.map (fun _ => [1])))
  constructor
  · apply h.2.2 ["a"] ["b", "c"] ⟨"partial_success", 2, "BAAI/bge-small-en-v1.5"⟩
    have hw : processChunks (fun ts => if ts.length = 1 then none else some (ts.map (fun _ => [1])))
        ["a"] = 0 := by
      rw [processChunks_eq _ _ (by decide)]
      simp [processChunks_nil]
    have hr : processChunks (fun ts => if ts.length = 1 then none else some (ts.map (fun _ => [1])))
        ["b", "c"] = 2 := by
      rw [processChunks_eq _ _ (by decide)]
      simp [processChunks_nil, savedCount]
      decide
    rw [generateEmbeddings, if_neg (by decide), hw, hr]
    norm_num
  · exact h.2.1 (List.replicate 32 "x") ["y"] (by simp)

/-! Extraction/writer lemmas for C1 and C5 -/

lemma extractLoopWF_mem {df : DataFrame} {c : Int} :
    ∀ {l : List Int} {res : List WFRecord}, extractLoopWF df c l = .ok res →
      ∀ rec ∈ res, ∃ i ∈ l, ∃ cell, iloc df (i - 1) c = .ok cell ∧ pyIsNa cell = false ∧
        rec.row_index = i + 1 ∧ rec.description = pyStrip (pyStr cell) := by
  intro l
  induction l with
  | nil =>
    intro res h rec hrec
    have hres : res = [] := (Except.ok.inj h).symm
    subst hres
    simp at hrec
  | cons i rest ih =>
    intro res h rec hrec
    rw [extractLoopWF] at h
    cases hcell : iloc df (i - 1) c with
    | error e =>
      rw [hcell] at h
      exact absurd h (by simp)
    | ok cell =>
      rw [hcell] at h
      dsimp only at h
      by_cases hna : pyIsNa cell = true
      · rw [if_pos hna] at h
        obtain ⟨i2, hi2, cell2, hc2⟩ := ih h rec hrec
        exact ⟨i2, List.mem_cons_of_mem _ hi2, cell2, hc2⟩
      · rw [if_neg hna] at h
        by_cases hdesc : pyStrip (pyStr cell) = ""
        · rw [if_pos hdesc] at h
          obtain ⟨i2, hi2, cell2, hc2⟩ := ih h rec hrec
          exact ⟨i2, List.mem_cons_of_mem _ hi2, cell2, hc2⟩
        · rw [if_neg hdesc] at h
          cases hrest : extractLoopWF df c rest with
          | error e =>
            rw [hrest] at h
            exact absurd h (by simp)
          | ok res2 =>
            rw [hrest] at h
            have hres : res = ⟨i + 1, pyStrip (pyStr cell)⟩ :: res2 := (Except.ok.inj h).symm
            subst hres
            rcases List.mem_cons.mp hrec with h1 | h2
            · subst h1
              exact ⟨i, List.mem_cons_self _ _, cell, hcell, by simpa using hna, rfl, rfl⟩
            · obtain ⟨i2, hi2, cell2, hc2⟩ := ih hrest rec h2
              exact ⟨i2, List.mem_cons_of_mem _ hi2, cell2, hc2⟩

lemma iloc_ok_value {df : DataFrame} {i c : Int} {cell : Cell}
    (hi : 0 ≤ i) (hc : 0 ≤ c) (h : iloc df i c = .ok cell) :
    cell = (df.rows.getD i.toNat []).getD c.toNat Cell.na := by
  simp only [iloc] at h
  rw [if_neg (not_lt.mpr hi), if_neg (not_lt.mpr hc)] at h
  split_ifs at h
  exact (Except.ok.inj h).symm

lemma tail_getD {α : Type} (l : List α) (k : Nat) (d : α) :
    l.tail.getD k d = l.getD (k + 1) d := by
  cases l with
  | nil => simp
  | cons x xs => simp

lemma getD_mem {α : Type} {l : List α} {n : Nat} (d : α) (h : n < l.length) :
    l.getD n d ∈ l := by
  induction l generalizing n with
  | nil => simp at h
  | cons x xs ih =>
    cases n with
    | zero => simp
    | succ m =>
      simp only [List.getD_cons_succ]
      exact List.mem_cons_of_mem _ (ih (by simpa using h))

/-- C1 part A packaged: records of a working-file extraction whose
range starts at spreadsheet row 2 or later carry the trimmed content of
the 1-based spreadsheet row named by their `row_index`. -/
lemma extractWF_sheet_native (sheet : List (List Cell)) (descCol : String) (r : RowRange)
    (cIdx : Int) (res : List WFRecord)
    (hcol : columnLetterToIndex descCol = .ok cIdx) (hc0 : 0 ≤ cIdx) (hs : 2 ≤ r.start)
    (h : extractWorkingFileData (readExcel sheet) descCol r = .ok res) :
    ∀ rec ∈ res, 2 ≤ rec.row_index ∧
      rec.description = sheetCellTrimmed sheet rec.row_index cIdx := by
  unfold extractWorkingFileData at h
  rw [hcol] at h
  dsimp only at h
  rw [if_neg (by omega)] at h
  by_cases hcb : cIdx ≥ (readExcel sheet).ncols
  · rw [if_pos hcb] at h
    exact absurd h (by simp)
  · rw [if_neg hcb] at h
    intro rec hrec
    obtain ⟨i, hi, cell, hcell, hna, hrow, hdescr⟩ := extractLoopWF_mem h rec hrec
    have hib := mem_intRange.mp hi
    have hi1 : 1 ≤ i := by omega
    have hval := iloc_ok_value (by omega) hc0 hcell
    constructor
    · omega
    · rw [hdescr, hval, hrow]
      unfold sheetCellTrimmed
      have hr1 : (i + 1 - 1).toNat = (i - 1).toNat + 1 := by omega
      rw [hr1]
      have hrows : (readExcel sheet).rows = sheet.tail := rfl
      rw [hrows, tail_getD]

lemma iatSet_spec (df : DataFrame) (i c : Int) (v : Cell)
    (hi0 : 0 ≤ i) (hi : i < df.nrows) (hc0 : 0 ≤ c) (hc : c < df.ncols) :
    ∃ df2, iatSet df i c v = some df2 ∧ df2.names = df.names ∧
      df2.rows.length = df.rows.length ∧
      (Rect df → Rect df2) ∧
      (Rect df → getCell df2 i.toNat c.toNat = v) ∧
      (∀ r2 c2 : Nat, r2 ≠ i.toNat ∨ c2 ≠ c.toNat →
        getCell df2 r2 c2 = getCell df r2 c2) := by
  have hrowlen : i.toNat < df.rows.length := by
    simp only [DataFrame.nrows] at hi
    omega
  refine ⟨{ df with rows := df.rows.set i.toNat ((df.rows.getD i.toNat []).set c.toNat v) },
    ?_, rfl, ?_, ?_, ?_, ?_⟩
  · simp only [iatSet]
    rw [if_neg (not_lt.mpr hi0), if_neg (not_lt.mpr hc0)]
    rw [if_pos ⟨hi0, hi, hc0, hc⟩]
  · simp
  · intro hrect row hrow
    rcases List.mem_or_eq_of_mem_set hrow with hmem | heq
    · exact hrect row hmem
    · subst heq
      show ((df.rows.getD i.toNat []).set c.toNat v).length = df.names.length
      rw [List.length_set]
      exact hrect _ (getD_mem [] hrowlen)
  · intro hrect
    unfold getCell
    simp only
    rw [getD_set_eq _ _ _ _ hrowlen]
    have hlen : c.toNat < (df.rows.getD i.toNat []).length := by
      rw [hrect _ (getD_mem [] hrowlen)]
      simp only [DataFrame.ncols] at hc
      omega
    exact getD_set_eq _ _ _ _ hlen
  · intro r2 c2 hne
    unfold getCell
    simp only
    rcases hne with hne | hne
    · rw [getD_set_ne _ _ _ (fun hh => hne hh.symm)]
    · by_cases hr2 : r2 = i.toNat
      · subst hr2
        rw [getD_set_eq _ _ _ _ hrowlen]
        rw [getD_set_ne _ _ _ (fun hh => hne hh.symm)]
      · rw [getD_set_ne _ _ _ (fun hh => hr2 hh.symm)]

lemma toNat_row_ne {a b : Int} (ha : 2 ≤ a) (hb : 2 ≤ b) (hne : a ≠ b) :
    (a - 2).toNat ≠ (b - 2).toNat := by
  omega

lemma writeLoop_spec (pIdx rIdx : Int) (hp0 : 0 ≤ pIdx) (hr0 : 0 ≤ rIdx) (hpr : pIdx ≠ rIdx) :
    ∀ (l : List MatchResultR) (df : DataFrame),
      pIdx < df.ncols → rIdx < df.ncols → Rect df →
      (∀ a ∈ l, 2 ≤ a.wf_row_index ∧ a.wf_row_index - 2 < df.nrows) →
      l.Pairwise (fun a b => a.wf_row_index ≠ b.wf_row_index) →
      ∃ df2, writeLoop pIdx rIdx l df = some df2 ∧
        df2.names = df.names ∧ df2.rows.length = df.rows.length ∧ Rect df2 ∧
        (∀ r2 c2 : Nat, (∀ a ∈ l, (a.wf_row_index - 2).toNat ≠ r2) →
          getCell df2 r2 c2 = getCell df r2 c2) ∧
        (∀ a ∈ l,
          (a.matched = true →
            getCell df2 (a.wf_row_index - 2).toNat pIdx.toNat = priceCellOf a.price ∧
            getCell df2 (a.wf_row_index - 2).toNat rIdx.toNat = Cell.str (reportText a)) ∧
          (a.matched = false →
            getCell df2 (a.wf_row_index - 2).toNat rIdx.toNat = Cell.str "Brak dopasowania" ∧
            ∀ c2 : Nat, c2 ≠ rIdx.toNat →
              getCell df2 (a.wf_row_index - 2).toNat c2 =
                getCell df (a.wf_row_index - 2).toNat c2)) := by
  intro l
  induction l with
  | nil =>
    intro df _ _ hrect _ _
    exact ⟨df, rfl, rfl, rfl, hrect, fun _ _ _ => rfl, by simp⟩
  | cons a rest ih =>
    intro df hpc hrc hrect hrows hpw
    obtain ⟨ha2, harow⟩ := hrows a (List.mem_cons_self _ _)
    have hrowsrest : ∀ b ∈ rest, 2 ≤ b.wf_row_index ∧ b.wf_row_index - 2 < df.nrows :=
      fun b hb => hrows b (List.mem_cons_of_mem _ hb)
    have hpwrest := (List.pairwise_cons.mp hpw).2
    have hpwhead := (List.pairwise_cons.mp hpw).1
    have hrowne : ∀ b ∈ rest, (b.wf_row_index - 2).toNat ≠ (a.wf_row_index - 2).toNat :=
      fun b hb =>
        toNat_row_ne (hrowsrest b hb).1 ha2 (fun hh => (hpwhead b hb) hh.symm)
    have hptont : pIdx.toNat ≠ rIdx.toNat := by omega
    simp only [writeLoop]
    rw [if_pos ⟨harow, by omega⟩]
    cases hm : a.matched with
    | true =>
      rw [if_pos rfl]
      obtain ⟨df1, hdf1, hn1, hl1, hrect1, hcell1, hframe1⟩ :=
        iatSet_spec df (a.wf_row_index - 2) pIdx (priceCellOf a.price) (by omega) harow hp0 hpc
      rw [hdf1]
      dsimp only
      have hnc1 : df1.ncols = df.ncols := by
        simp only [DataFrame.ncols, hn1]
      have hnr1 : df1.nrows = df.nrows := by
        simp only [DataFrame.nrows, hl1]
      obtain ⟨dfb, hdfb, hnb, hlb, hrectb, hcellb, hframeb⟩ :=
        iatSet_spec df1 (a.wf_row_index - 2) rIdx (Cell.str (reportText a)) (by omega)
          (by omega) hr0 (by omega)
      rw [hdfb]
      dsimp only
      have hncb : dfb.ncols = df.ncols := by
        simp only [DataFrame.ncols, hnb, hn1]
      have hnrb : dfb.nrows = df.nrows := by
        simp only [DataFrame.nrows, hlb, hl1]
      obtain ⟨df2, hdf2, hn2, hl2, hrect2, hframe2, hmem2⟩ :=
        ih dfb (by omega) (by omega) (hrectb (hrect1 hrect)) (fun b hb => ⟨(hrowsrest b hb).1, by
          have := (hrowsrest b hb).2
          omega⟩) hpwrest
      refine ⟨df2, hdf2, by rw [hn2, hnb, hn1], by rw [hl2, hlb, hl1], hrect2, ?_, ?_⟩
      · intro r2 c2 hnt
        have hnta := hnt a (List.mem_cons_self _ _)
        rw [hframe2 r2 c2 (fun b hb => hnt b (List.mem_cons_of_mem _ hb))]
        rw [hframeb r2 c2 (Or.inl (fun hh => hnta hh.symm))]
        rw [hframe1 r2 c2 (Or.inl (fun hh => hnta hh.symm))]
      · intro b hb
        rcases List.mem_cons.mp hb with hba | hbrest
        · subst hba
          constructor
          · intro _
            have hfr := hframe2 (b.wf_row_index - 2).toNat
            constructor
            · rw [hfr pIdx.toNat (fun x hx => hrowne x hx)]
              rw [hframeb _ _ (Or.inr hptont)]
              exact hcell1 hrect
            · rw [hfr rIdx.toNat (fun x hx => hrowne x hx)]
              exact hcellb (hrect1 hrect)
          · intro hmf
            rw [hm] at hmf
            exact absurd hmf (by simp)
        · have hbmem := hmem2 b hbrest
          have hbother : (b.wf_row_index - 2).toNat ≠ (a.wf_row_index - 2).toNat :=
            hrowne b hbrest
          constructor
          · exact hbmem.1
          · intro hmf
            refine ⟨(hbmem.2 hmf).1, ?_⟩
            intro c2 hc2
            rw [(hbmem.2 hmf).2 c2 hc2]
            rw [hframeb _ _ (Or.inl hbother)]
            rw [hframe1 _ _ (Or.inl hbother)]
    | false =>
      rw [if_neg (by simp)]
      obtain ⟨df1, hdf1, hn1, hl1, hrect1, hcell1, hframe1⟩ :=
        iatSet_spec df (a.wf_row_index - 2) rIdx (Cell.str "Brak dopasowania") (by omega)
          harow hr0 hrc
      rw [hdf1]
      dsimp only
      have hnc1 : df1.ncols = df.ncols := by
        simp only [DataFrame.ncols, hn1]
      have hnr1 : df1.nrows = df.nrows := by
        simp only [DataFrame.nrows, hl1]
      obtain ⟨df2, hdf2, hn2, hl2, hrect2, hframe2, hmem2⟩ :=
        ih df1 (by omega) (by omega) (hrect1 hrect) (fun b hb => ⟨(hrowsrest b hb).1, by
          have := (hrowsrest b hb).2
          omega⟩) hpwrest
      refine ⟨df2, hdf2, by rw [hn2, hn1], by rw [hl2, hl1], hrect2, ?_, ?_⟩
      · intro r2 c2 hnt
        have hnta := hnt a (List.mem_cons_self _ _)
        rw [hframe2 r2 c2 (fun b hb => hnt b (List.mem_cons_of_mem _ hb))]
        rw [hframe1 r2 c2 (Or.inl (fun hh => hnta hh.symm))]
      · intro b hb
        rcases List.mem_cons.mp hb with hba | hbrest
        · subst hba
          constructor
          · intro hmt
            rw [hm] at hmt
            exact absurd hmt (by simp)
          · intro _
            have hfr := hframe2 (b.wf_row_index - 2).toNat
            constructor
            · rw [hfr rIdx.toNat (fun x hx => hrowne x hx)]
              exact hcell1 hrect
            · intro c2 hc2
              rw [hfr c2 (fun x hx => hrowne x hx)]
              exact hframe1 _ _ (Or.inr hc2)
        · have hbmem := hmem2 b hbrest
          have hbother : (b.wf_row_index - 2).toNat ≠ (a.wf_row_index - 2).toNat :=
            hrowne b hbrest
          constructor
          · exact hbmem.1
          · intro hmf
            refine ⟨(hbmem.2 hmf).1, ?_⟩
            intro c2 hc2
            rw [(hbmem.2 hmf).2 c2 hc2]
            exact hframe1 _ _ (Or.inl hbother)

lemma appendNaRows_spec (df : DataFrame) (k : Nat) :
    (appendNaRows df k).names = df.names ∧
      (appendNaRows df k).rows.length = df.rows.length + k ∧
      (Rect df → Rect (appendNaRows df k)) ∧
      (∀ r2 c2 : Nat, r2 < df.rows.length →
        getCell (appendNaRows df k) r2 c2 = getCell df r2 c2) := by
  refine ⟨rfl, by simp [appendNaRows], ?_, ?_⟩
  · intro hrect row hrow
    rcases List.mem_append.mp hrow with hmem | hmem
    · exact hrect row hmem
    · have := List.eq_of_mem_replicate hmem
      subst this
      simp [appendNaRows]
  · intro r2 c2 hr2
    unfold getCell appendNaRows
    simp only
    rw [getD_append_left _ _ _ _ hr2]

lemma updateWorkingFile_spec (results : List MatchResultR) (df : DataFrame)
    (priceCol reportCol : String) (pIdx rIdx : Int)
    (hp : columnLetterToIndex priceCol = .ok pIdx)
    (hr : columnLetterToIndex reportCol = .ok rIdx)
    (hp0 : 0 ≤ pIdx) (hpb : pIdx < df.ncols) (hr0 : 0 ≤ rIdx) (hrb : rIdx < df.ncols)
    (hpr : pIdx ≠ rIdx) (hrect : Rect df)
    (hrows : ∀ a ∈ results, 2 ≤ a.wf_row_index ∧ a.wf_row_index - 2 < df.nrows)
    (hnodup : results.Pairwise (fun a b => a.wf_row_index ≠ b.wf_row_index)) :
    ∃ df2, updateWorkingFile results df priceCol reportCol = some df2 ∧
      ∀ a ∈ results,
        (a.matched = true →
          getCell df2 (a.wf_row_index - 2).toNat pIdx.toNat = priceCellOf a.price ∧
          getCell df2 (a.wf_row_index - 2).toNat rIdx.toNat = Cell.str (reportText a)) ∧
        (a.matched = false →
          getCell df2 (a.wf_row_index - 2).toNat rIdx.toNat = Cell.str "Brak dopasowania" ∧
          ∀ c2 : Nat, c2 ≠ rIdx.toNat →
            getCell df2 (a.wf_row_index - 2).toNat c2 =
              getCell df (a.wf_row_index - 2).toNat c2) := by
  unfold updateWorkingFile
  rw [hp, hr]
  dsimp only
  rw [if_neg (not_le.mpr hpb), if_neg (not_le.mpr hrb)]
  by_cases hres : results = []
  · have hre : results.isEmpty = true := by
      subst hres
      rfl
    rw [if_pos hre]
    subst hres
    exact ⟨df, rfl, by simp⟩
  · have hre : ¬(results.isEmpty = true) := by
      simp only [List.isEmpty_iff]
      exact hres
    rw [if_neg hre]
    by_cases hmax : intListMax (results.map (fun r => r.wf_row_index)) ≥ df.nrows
    · rw [if_pos hmax]
      set k := (intListMax (results.map (fun r => r.wf_row_index)) - df.nrows + 1).toNat with hk
      set dfA := appendNaRows df k with hdfA
      obtain ⟨hnm, hlm, hrectm, hcellm⟩ := appendNaRows_spec df k
      rw [← hdfA] at hnm hlm hrectm hcellm
      have hncm : dfA.ncols = df.ncols := by
        simp only [DataFrame.ncols, hnm]
      have hnrm : df.nrows ≤ dfA.nrows := by
        simp only [DataFrame.nrows, hlm]
        omega
      obtain ⟨df2, hdf2, hn2, hl2, hrect2, hframe2, hmem2⟩ :=
        writeLoop_spec pIdx rIdx hp0 hr0 hpr results dfA (by omega) (by omega) (hrectm hrect)
          (fun a ha => ⟨(hrows a ha).1, by
            have := (hrows a ha).2
            omega⟩) hnodup
      refine ⟨df2, hdf2, ?_⟩
      intro a ha
      have hma := hmem2 a ha
      have harown : ((a.wf_row_index - 2).toNat : Nat) < df.rows.length := by
        have h1 := (hrows a ha).1
        have h2 := (hrows a ha).2
        simp only [DataFrame.nrows] at h2
        omega
      refine ⟨hma.1, ?_⟩
      intro hmf
      refine ⟨(hma.2 hmf).1, ?_⟩
      intro c2 hc2
      rw [(hma.2 hmf).2 c2 hc2]
      exact hcellm _ _ harown
    · rw [if_neg hmax]
      obtain ⟨df2, hdf2, hn2, hl2, hrect2, hframe2, hmem2⟩ :=
        writeLoop_spec pIdx rIdx hp0 hr0 hpr results df hpb hrb hrect hrows hnodup
      exact ⟨df2, hdf2, hmem2⟩

lemma outSheetCell_eq_getCell (header : List Cell) (df : DataFrame) (r cI : Int)
    (h2 : 2 ≤ r) :
    outSheetCell header df r cI = getCell df (r - 2).toNat cI.toNat := by
  unfold outSheetCell getCell
  have hidx : (r - 1).toNat = (r - 2).toNat + 1 := by omega
  rw [hidx]
  simp

/-- C5 (amended): during write-back every matched result's price cell
receives the result's price (NaN when absent) and its report cell the
string built from the status with underscores replaced by spaces and
the first letter capitalized, the literal label `" (podobieństwo: "`,
and the similarity formatted to one decimal followed by `"%"` (or
`"N/A"` when absent); an unmatched result writes only the fixed
no-match marker into its report cell, its price cell keeping its
previous value. -/
theorem c5_writeback_report_format (results : List MatchResultR) (df : DataFrame)
    (priceCol reportCol : String) (pIdx rIdx : Int)
    (hp : columnLetterToIndex priceCol = .ok pIdx)
    (hr : columnLetterToIndex reportCol = .ok rIdx)
    (hp0 : 0 ≤ pIdx) (hpb : pIdx < df.ncols) (hr0 : 0 ≤ rIdx) (hrb : rIdx < df.ncols)
    (hpr : pIdx ≠ rIdx) (hrect : Rect df)
    (hrows : ∀ a ∈ results, 2 ≤ a.wf_row_index ∧ a.wf_row_index - 2 < df.nrows)
    (hnodup : results.Pairwise (fun a b => a.wf_row_index ≠ b.wf_row_index)) :
    ∃ df2, updateWorkingFile results df priceCol reportCol = some df2 ∧
      ∀ a ∈ results,
        (a.matched = true →
          getCell df2 (a.wf_row_index - 2).toNat pIdx.toNat = priceCellOf a.price ∧
          getCell df2 (a.wf_row_index - 2).toNat rIdx.toNat = Cell.str
            (pyCapitalize (pyReplaceUnderscore a.matching_status) ++ " (podobieństwo: " ++
              (match a.similarity with
               | some v => pyFormatFix1 v ++ "%"
               | none => "N/A") ++ ")")) ∧
        (a.matched = false →
          getCell df2 (a.wf_row_index - 2).toNat rIdx.toNat = Cell.str "Brak dopasowania" ∧
          getCell df2 (a.wf_row_index - 2).toNat pIdx.toNat =
            getCell df (a.wf_row_index - 2).toNat pIdx.toNat) := by
  obtain ⟨df2, hdf2, hmem⟩ :=
    updateWorkingFile_spec results df priceCol reportCol pIdx rIdx hp hr hp0 hpb hr0 hrb
      hpr hrect hrows hnodup
  refine ⟨df2, hdf2, ?_⟩
  intro a ha
  have hma := hmem a ha
  refine ⟨fun hmt => (hma.1 hmt), fun hmf => ⟨(hma.2 hmf).1, ?_⟩⟩
  exact (hma.2 hmf).2 pIdx.toNat (by omega)

/-- C5 witness: one matched and one unmatched result written into a
two-row table — the matched row receives price and the formatted
report, the unmatched row only the marker, its price cell unchanged. -/
theorem c5_writeback_report_format_witness :
    ∃ df2, updateWorkingFile
        [⟨2, "x", true, some 5, some "x", some 80, some 7, "matched"⟩,
         ⟨3, "z", false, none, none, none, none, "no_match"⟩]
        ⟨["A", "B"], [[Cell.str "x", Cell.str "y"], [Cell.str "z", Cell.str "w"]]⟩
        "A" "B" = some df2 ∧
      ∀ a ∈ [(⟨2, "x", true, some 5, some "x", some 80, some 7, "matched"⟩ : MatchResultR),
             ⟨3, "z", false, none, none, none, none, "no_match"⟩],
        (a.matched = true →
          getCell df2 (a.wf_row_index - 2).toNat (0 : Int).toNat = priceCellOf a.price ∧
          getCell df2 (a.wf_row_index - 2).toNat (1 : Int).toNat = Cell.str
            (pyCapitalize (pyReplaceUnderscore a.matching_status) ++ " (podobieństwo: " ++
              (match a.similarity with
               | some v => pyFormatFix1 v ++ "%"
               | none => "N/A") ++ ")")) ∧
        (a.matched = false →
          getCell df2 (a.wf_row_index - 2).toNat (1 : Int).toNat =
            Cell.str "Brak dopasowania" ∧
          getCell df2 (a.wf_row_index - 2).toNat (0 : Int).toNat =
            getCell ⟨["A", "B"], [[Cell.str "x", Cell.str "y"], [Cell.str "z", Cell.str "w"]]⟩
              (a.wf_row_index - 2).toNat (0 : Int).toNat) :=
  c5_writeback_report_format
    [⟨2, "x", true, some 5, some "x", some 80, some 7, "matched"⟩,
     ⟨3, "z", false, none, none, none, none, "no_match"⟩]
    ⟨["A", "B"], [[Cell.str "x", Cell.str "y"], [Cell.str "z", Cell.str "w"]]⟩
    "A" "B" 0 1 rfl rfl (by decide) (by decide) (by decide) (by decide) (by decide)
    (by intro row hrow; fin_cases hrow <;> rfl) (by decide) (by decide)

/-- C5 counterexample: the claim's report string uses the label
`"similarity"`, but the source writes the literal label
`"podobieństwo"` — the written cell differs from the claimed string. -/
theorem c5_label_counterexample :
    (updateWorkingFile [⟨2, "x", true, some 5, some "x", some 80, some 7, "matched"⟩]
        ⟨["A", "B"], [[Cell.str "x", Cell.str "y"]]⟩ "A" "B").map
        (fun d => getCell d 0 1) =
      some (Cell.str "Matched (podobieństwo: 80.0%)") ∧
    "Matched (podobieństwo: 80.0%)" ≠ "Matched (similarity: 80.0%)" :=
  ⟨by decide, by decide⟩

/-- C1 (amended): row indices are spreadsheet-native across the two
component boundaries in the following sense — (extraction) every record
retained by a working-file extraction whose range starts at spreadsheet
row 2 or later carries `row_index = loop index + 1 ≥ 2`, and its
description is the trimmed content of the description cell of the
1-based spreadsheet row equal to `row_index`; (write-back) a result
with `wf_row_index` `r` (with `r − 2` a valid zero-based data-row
coordinate) is written into spreadsheet row `r` of the output — the
row offset of 2 compensating header row and 1-basing, not `r`
unmodified as the DataFrame coordinate. -/
theorem c1_spreadsheet_native_row_indices :
    (∀ (sheet : List (List Cell)) (descCol : String) (r : RowRange) (cIdx : Int)
        (res : List WFRecord),
      columnLetterToIndex descCol = .ok cIdx → 0 ≤ cIdx → 2 ≤ r.start →
      extractWorkingFileData (readExcel sheet) descCol r = .ok res →
      ∀ rec ∈ res, 2 ≤ rec.row_index ∧
        rec.description = sheetCellTrimmed sheet rec.row_index cIdx) ∧
    (∀ (results : List MatchResultR) (df : DataFrame) (header : List Cell)
        (priceCol reportCol : String) (pIdx rIdx : Int),
      columnLetterToIndex priceCol = .ok pIdx → columnLetterToIndex reportCol = .ok rIdx →
      0 ≤ pIdx → pIdx < df.ncols → 0 ≤ rIdx → rIdx < df.ncols → pIdx ≠ rIdx → Rect df →
      (∀ a ∈ results, 2 ≤ a.wf_row_index ∧ a.wf_row_index - 2 < df.nrows) →
      results.Pairwise (fun a b => a.wf_row_index ≠ b.wf_row_index) →
      ∃ df2, updateWorkingFile results df priceCol reportCol = some df2 ∧
        ∀ a ∈ results, a.matched = true →
          outSheetCell header df2 a.wf_row_index rIdx = Cell.str (reportText a) ∧
          outSheetCell header df2 a.wf_row_index pIdx = priceCellOf a.price) := by
  constructor
  · exact extractWF_sheet_native
  · intro results df header priceCol reportCol pIdx rIdx hp hr hp0 hpb hr0 hrb hpr hrect
      hrows hnodup
    obtain ⟨df2, hdf2, hmem⟩ :=
      updateWorkingFile_spec results df priceCol reportCol pIdx rIdx hp hr hp0 hpb hr0 hrb
        hpr hrect hrows hnodup
    refine ⟨df2, hdf2, ?_⟩
    intro a ha hmt
    have hma := (hmem a ha).1 hmt
    have ha2 := (hrows a ha).1
    rw [outSheetCell_eq_getCell header df2 a.wf_row_index rIdx ha2]
    rw [outSheetCell_eq_getCell header df2 a.wf_row_index pIdx ha2]
    exact ⟨hma.2, hma.1⟩

/-- C1 witness: a three-data-row sheet extracted from row 2 yields
records whose descriptions match their named spreadsheet rows, and a
matched result with `wf_row_index` 2 lands in spreadsheet row 2 of the
written-back output. -/
theorem c1_spreadsheet_native_row_indices_witness :
    (∀ rec ∈ [(⟨2, "foo"⟩ : WFRecord), ⟨3, "bar"⟩], 2 ≤ rec.row_index ∧
      rec.description = sheetCellTrimmed
        [[Cell.str "h"], [Cell.str "foo"], [Cell.str "bar"], [Cell.str "baz"]]
        rec.row_index 0) ∧
    (∃ df2, updateWorkingFile
        [⟨2, "x", true, some 5, some "x", some 80, some 7, "matched"⟩]
        ⟨["A", "B"], [[Cell.str "x", Cell.str "y"]]⟩ "A" "B" = some df2 ∧
      ∀ a ∈ [(⟨2, "x", true, some 5, some "x", some 80, some 7, "matched"⟩ : MatchResultR)],
        a.matched = true →
          outSheetCell [Cell.str "A", Cell.str "B"] df2 a.wf_row_index 1 =
            Cell.str (reportText a) ∧
          outSheetCell [Cell.str "A", Cell.str "B"] df2 a.wf_row_index 0 =
            priceCellOf a.price) := by
  constructor
  · exact c1_spreadsheet_native_row_indices.1
      [[Cell.str "h"], [Cell.str "foo"], [Cell.str "bar"], [Cell.str "baz"]]
      "A" ⟨2, 3⟩ 0 [⟨2, "foo"⟩, ⟨3, "bar"⟩] rfl (by decide) (by decide) (by decide)
  · exact c1_spreadsheet_native_row_indices.2
      [⟨2, "x", true, some 5, some "x", some 80, some 7, "matched"⟩]
      ⟨["A", "B"], [[Cell.str "x", Cell.str "y"]]⟩ [Cell.str "A", Cell.str "B"]
      "A" "B" 0 1 rfl rfl (by decide) (by decide) (by decide) (by decide) (by decide)
      (by intro row hrow; fin_cases hrow <;> rfl) (by decide) (by decide)

/-- C1 counterexample: with a range starting at row 1, the loop index 0
reads `df.iloc[-1]`, which wraps to the last data row — the retained
record claims `row_index` 1 while its description is the content of the
last spreadsheet row, not of spreadsheet row 1. -/
theorem c1_wraparound_counterexample :
    extractWorkingFileData (readExcel [[Cell.str "desc"], [Cell.str "foo"], [Cell.str "bar"]])
        "A" ⟨1, 1⟩ = Except.ok [⟨1, "bar"⟩] ∧
    sheetCellTrimmed [[Cell.str "desc"], [Cell.str "foo"], [Cell.str "bar"]] 1 0 = "desc" ∧
    ("bar" : String) ≠ "desc" :=
  ⟨by decide, by decide, by decide⟩

end FastBidder
